import Mathlib

/-!
# Verification of the go-utcode serialization codec

A shallow embedding of the `utcode` Go package: the two encoder variants
(`encode.go` in its two observed revisions) and the decoder (`decode.go`),
together with proofs and refutations of the specification's claims.

Modelling conventions:
* Go byte strings and buffers are `List Nat` (byte values); ASCII literals are
  written via `asciiBytes`.
* Go `int`/`int64` values are `Int` (with explicit range side conditions where
  `strconv` enforces 64-bit bounds).
* Go `float64` values are modelled as the rational numbers they denote
  (every float64 is a dyadic rational, hence has a finite decimal expansion);
  Go's shortest round-trip formatting `%v` is modelled as exact decimal
  printing, and `strconv.ParseFloat` as exact decimal parsing on the plain
  (non-exponent) decimal fragment, which covers every string the encoders emit.
* Panics in the Go source are modelled explicitly: a recovered panic carrying
  an `error` becomes a returned error, while a re-panicked value
  (`runtime.Error`s and `string` panics are re-panicked by the
  `recover` blocks in `Encode`/`Decode`) becomes a `crash` outcome,
  i.e. an uncontrolled termination of the host process.
-/

/-- ASCII bytes of a string literal (used only for ASCII text). -/
def asciiBytes (s : String) : List Nat := s.toList.map Char.toNat

/-- Structural worker for `natToDigits` (the fuel argument only bounds the
recursion depth; `natToDigitsF_congr` shows any fuel of at least `n` gives
the same digits). -/
def natToDigitsF : Nat → Nat → List Nat
  | 0, n => [48 + n % 10]
  | fuel + 1, n => if n < 10 then [48 + n] else natToDigitsF fuel (n / 10) ++ [48 + n % 10]

/-- Decimal digits (ASCII bytes, most significant first) of a natural number,
as produced by Go's `fmt` package for `%v` on integers. -/
def natToDigits (n : Nat) : List Nat := natToDigitsF n n

/-- Go `fmt` `%v` of a signed integer: optional minus sign then decimal digits. -/
def fmtInt (n : Int) : List Nat :=
  if n < 0 then 45 :: natToDigits n.natAbs else natToDigits n.toNat

/-- Digit value of byte `c` in the given base, following `strconv`'s
digit classification (`0-9`, `a-z`, `A-Z`). -/
def baseDigitVal (base c : Nat) : Option Nat :=
  if 48 ≤ c ∧ c ≤ 57 then (if c - 48 < base then some (c - 48) else none)
  else if 97 ≤ c ∧ c ≤ 122 then (if c - 87 < base then some (c - 87) else none)
  else if 65 ≤ c ∧ c ≤ 90 then (if c - 55 < base then some (c - 55) else none)
  else none

/-- Accumulate digit bytes in the given base; `none` on any invalid digit. -/
def digitsToNat (base : Nat) (acc : Nat) : List Nat → Option Nat
  | [] => some acc
  | c :: r =>
    match baseDigitVal base c with
    | none => none
    | some d => digitsToNat base (acc * base + d) r

/-- Lower-case an ASCII letter byte (Go `strconv`'s `lower`). -/
def lowerByte (c : Nat) : Nat := if 65 ≤ c ∧ c ≤ 90 then c + 32 else c

/-- Unsigned part of `strconv.ParseInt(s, 0, 64)`: base detection from the
`0b`/`0o`/`0x`/leading-zero prefixes, else decimal.  (Underscore digit
separators, which Go additionally accepts in base-0 mode, are not modelled;
no wire data in this development contains them.) -/
def parseUint0 (s : List Nat) : Option Nat :=
  match s with
  | [] => none
  | c0 :: rest =>
    if c0 = 48 then
      match rest with
      | [] => some 0
      | c1 :: rest2 =>
        let l := lowerByte c1
        if l = 98 ∧ rest2 ≠ [] then digitsToNat 2 0 rest2
        else if l = 111 ∧ rest2 ≠ [] then digitsToNat 8 0 rest2
        else if l = 120 ∧ rest2 ≠ [] then digitsToNat 16 0 rest2
        else digitsToNat 8 0 rest
    else digitsToNat 10 0 s

/-- `strconv.ParseInt(s, 0, 64)`: sign handling, base-0 prefix detection and
the 64-bit range check.  Returns `none` where Go returns a non-nil error. -/
def goParseInt (s : List Nat) : Option Int :=
  match s with
  | [] => none
  | c :: rest =>
    if c = 43 then
      (parseUint0 rest).bind fun u => if u ≤ 2 ^ 63 - 1 then some (u : Int) else none
    else if c = 45 then
      (parseUint0 rest).bind fun u => if u ≤ 2 ^ 63 then some (-(u : Int)) else none
    else
      (parseUint0 s).bind fun u => if u ≤ 2 ^ 63 - 1 then some (u : Int) else none

/-- The standard base64 alphabet (`encoding/base64.StdEncoding`). -/
def b64Alphabet : List Nat :=
  asciiBytes "ABCDEFGHIJKLMNOPQRSTUVWXYZabcdefghijklmnopqrstuvwxyz0123456789+/"

/-- Character (byte) for a 6-bit group. -/
def b64Char (i : Nat) : Nat := b64Alphabet.getD i 0

/-- The base64 padding byte. -/
def b64Pad : Nat := 61

/-- `base64.StdEncoding.EncodeToString`: 3-byte groups into 4 characters with
trailing `=` padding. -/
def encB64 : List Nat → List Nat
  | [] => []
  | [b0] => [b64Char (b0 / 4), b64Char (b0 % 4 * 16), b64Pad, b64Pad]
  | [b0, b1] =>
      [b64Char (b0 / 4), b64Char (b0 % 4 * 16 + b1 / 16), b64Char (b1 % 16 * 4), b64Pad]
  | b0 :: b1 :: b2 :: rest =>
      b64Char (b0 / 4) :: b64Char (b0 % 4 * 16 + b1 / 16) ::
      b64Char (b1 % 16 * 4 + b2 / 64) :: b64Char (b2 % 64) :: encB64 rest

/-- Index of a byte in the base64 alphabet. -/
def b64Index (c : Nat) : Option Nat := b64Alphabet.findIdx? (fun x => x == c)

/-- `base64.StdEncoding.DecodeString`: strict 4-character quanta, `=` padding
only at the end.  (Go additionally skips embedded CR/LF bytes; no data in this
development contains them.) -/
def decB64 : List Nat → Option (List Nat)
  | [] => some []
  | c0 :: c1 :: c2 :: c3 :: rest =>
    (match b64Index c0, b64Index c1 with
    | some i0, some i1 =>
      if c2 = b64Pad then
        if c3 = b64Pad ∧ rest = [] then some [i0 * 4 + i1 / 16] else none
      else
        match b64Index c2 with
        | some i2 =>
          if c3 = b64Pad then
            if rest = [] then some [i0 * 4 + i1 / 16, i1 % 16 * 16 + i2 / 4] else none
          else
            match b64Index c3 with
            | some i3 =>
              (decB64 rest).map (fun bs =>
                (i0 * 4 + i1 / 16) :: (i1 % 16 * 16 + i2 / 4) :: (i2 % 4 * 64 + i3) :: bs)
            | none => none
        | none => none
    | _, _ => none)
  | _ => none

/-- Least `k` with `d ∣ 10 ^ k` (searched up to `d`); `some` exactly when the
fraction `1/d` has a finite decimal expansion.  Every Go float64 value is a
dyadic rational, so for every value the Go encoder can see this is `some`. -/
def decExp (d : Nat) : Option Nat := (List.range (d + 1)).find? (fun k => 10 ^ k % d == 0)

/-- Decimal digits of `x` left-padded with zeros to width `k`. -/
def natDigitsPadded (k x : Nat) : List Nat :=
  List.replicate (k - (natToDigits x).length) 48 ++ natToDigits x

/-- Go `fmt` `%v` of a float64, modelled as the exact shortest decimal form of
the denoted rational: optional sign, integer digits, and — for non-integral
values — a point followed by the fraction digits (exponent notation, which Go
uses only for magnitudes outside `[1e-4, 1e21)`, is not modelled; no claim in
this development concerns such values). -/
def fmtFloat (q : ℚ) : List Nat :=
  let sign : List Nat := if q < 0 then [45] else []
  match decExp q.den with
  | none => sign ++ natToDigits q.num.natAbs
  | some k =>
    let m := q.num.natAbs * 10 ^ k / q.den
    if k = 0 then sign ++ natToDigits m
    else sign ++ natToDigits (m / 10 ^ k) ++ 46 :: natDigitsPadded k (m % 10 ^ k)

/-- Nonempty all-decimal digit string to a number. -/
def parseDecDigits (s : List Nat) : Option Nat :=
  match s with
  | [] => none
  | _ => digitsToNat 10 0 s

/-- `strconv.ParseFloat(s, 64)` on the plain decimal fragment
(`[sign] digits [. digits]`), with exact rational arithmetic.  This covers
every string the encoders emit for the values modelled here. -/
def goParseFloat (s : List Nat) : Option ℚ :=
  match s with
  | [] => none
  | c :: rest =>
    let neg := c = 45
    let body := if c = 45 ∨ c = 43 then rest else s
    let ip := body.takeWhile (fun x => x != 46)
    match body.dropWhile (fun x => x != 46) with
    | [] => (parseDecDigits ip).map (fun a => if neg then -(a : ℚ) else (a : ℚ))
    | _ :: fp =>
      match parseDecDigits ip, parseDecDigits fp with
      | some a, some b =>
        some ((if neg then -1 else 1) * ((a * 10 ^ fp.length + b : ℚ) / 10 ^ fp.length))
      | _, _ => none

/-- Model of a Go value as classified by `reflect.Kind` in the encoders.
Maps are association lists in iteration order (Go map iteration order is
unspecified; no claim in this development depends on it).  Array kinds and
the kinds with no encoder (chan, func, ...) are not needed by any claim and
are not modelled. -/
inductive GoVal where
  | vbool (b : Bool)
  | vint (n : Int)
  | vuint (n : Nat)
  | vfloat (q : ℚ)
  | vstr (s : List Nat)
  | vbytes (isNil : Bool) (s : List Nat)
  | vslice (isNil : Bool) (elems : List GoVal)
  | vmap (isNil : Bool) (entries : List (GoVal × GoVal))
  | vstruct (fields : List (List Nat × List Nat × Bool × GoVal))
  | vptr (inner : Option GoVal)
  | invalid

/-- A panic raised during encoding: `perr` carries an `error` value (the
`recover` block converts it to a returned error), `pstr` carries a `string`
value (the `recover` block re-panics it, crashing the process). -/
inductive EncPanic where
  | perr (msg : String)
  | pstr (msg : String)
  deriving DecidableEq

/-- Observable outcome of `Encode`. -/
inductive EncResult where
  | ok (bytes : List Nat)
  | err (msg : String)
  | crash (msg : String)
  deriving DecidableEq

/-- First-byte lower-casing of a field name
(`strings.ToLower(name[:1]) + name[1:]`, ASCII). -/
def lowerFirst : List Nat → List Nat
  | [] => []
  | c :: r => lowerByte c :: r

/-- Modelled from the spec: the wire key of a record field is the explicit
per-field tag override if present, else the declared name with its first
character lower-cased.  (The Go sources read the override via
`field.Tag.Get(TagName)` where the constant `TagName` is defined in a file
not present under `src/`; the model stores the already-extracted override.) -/
def fieldWireKey (name tag : List Nat) : List Nat :=
  if tag = [] then lowerFirst name else tag

/-- `stringEncoder` (identical in both encoder revisions):
`u<len(b64)>:<b64>`. -/
def stringEncoderBytes (s : List Nat) : List Nat :=
  let b64 := encB64 s
  [117] ++ natToDigits b64.length ++ [58] ++ b64

mutual
/-- `Encoder.encodeType` with the two revision-dependent scalar writers
(`boolEncoder`, `floatEncoder`) passed as parameters.  All remaining
dispatch arms are byte-identical in the two observed revisions of
`encode.go`.  The package-level `Encode` uses a zero-value `Encoder`,
whose custom-encoder registry is empty, so the default arm never finds a
registered encoder. -/
def encodeTypeW (bf : Bool → List Nat) (ff : ℚ → List Nat) :
    GoVal → Except EncPanic (List Nat)
  | .vbool b => .ok (bf b)
  | .vint n => .ok (asciiBytes "i:" ++ fmtInt n ++ [101])
  | .vuint n => .ok (asciiBytes "i:" ++ natToDigits n ++ [101])
  | .vfloat q => .ok (ff q)
  | .vstr s => .ok (stringEncoderBytes s)
  | .vbytes isNil s =>
      if isNil then .ok (asciiBytes "n:e") else .ok (stringEncoderBytes s)
  | .vslice isNil elems =>
      if isNil then .ok (asciiBytes "n:e") else do
        let body ← encodeListW bf ff elems
        .ok (asciiBytes "l:" ++ body ++ [101])
  | .vmap isNil entries => do
      let nilPart := if isNil then asciiBytes "n:e" else []
      let body ← encodeEntriesW bf ff entries
      .ok (nilPart ++ asciiBytes "d:" ++ body ++ [101])
  | .vstruct fields => do
      let body ← encodeFieldsW bf ff fields
      .ok (asciiBytes "d:" ++ body ++ [101])
  | .vptr none => .ok (asciiBytes "n:e")
  | .vptr (some v) => encodeTypeW bf ff v
  | .invalid => .ok (asciiBytes "n:e")

/-- `sliceEncoder`'s element loop. -/
def encodeListW (bf : Bool → List Nat) (ff : ℚ → List Nat) :
    List GoVal → Except EncPanic (List Nat)
  | [] => .ok []
  | v :: rest => do
      let ev ← encodeTypeW bf ff v
      let er ← encodeListW bf ff rest
      .ok (ev ++ er)

/-- `mapEncoder`'s key/value loop: panics with a `string` (not an `error`)
on a non-string-kinded key. -/
def encodeEntriesW (bf : Bool → List Nat) (ff : ℚ → List Nat) :
    List (GoVal × GoVal) → Except EncPanic (List Nat)
  | [] => .ok []
  | (k, v) :: rest =>
      match k with
      | .vstr s => do
          let ev ← encodeTypeW bf ff v
          let er ← encodeEntriesW bf ff rest
          .ok ([107] ++ natToDigits s.length ++ [58] ++ s ++ ev ++ er)
      | _ => .error (.pstr "map encoding supports only string as key")

/-- `structEncoder`'s field loop: unexported fields are skipped. -/
def encodeFieldsW (bf : Bool → List Nat) (ff : ℚ → List Nat) :
    List (List Nat × List Nat × Bool × GoVal) → Except EncPanic (List Nat)
  | [] => .ok []
  | (name, tag, exported, v) :: rest =>
      if exported then do
        let key := fieldWireKey name tag
        let ev ← encodeTypeW bf ff v
        let er ← encodeFieldsW bf ff rest
        .ok ([107] ++ natToDigits key.length ++ [58] ++ key ++ ev ++ er)
      else encodeFieldsW bf ff rest
end

/-- Wrap `encodeType` into the observable `Encode` result, applying the
`recover` block's panic policy. -/
def runEncode (r : Except EncPanic (List Nat)) : EncResult :=
  match r with
  | .ok bs => .ok (asciiBytes "ut:" ++ bs)
  | .error (.perr m) => .err m
  | .error (.pstr m) => .crash m

namespace Enc0

/-- `boolEncoder` of the `src/unnamed/part_000` revision: `b:1` / `b:0`. -/
def boolEncoder (b : Bool) : List Nat :=
  asciiBytes "b:" ++ (if b then [49] else [48])

/-- `floatEncoder` of the `src/unnamed/part_000` revision: whole-valued
floats collapse to the Integer token, others use the Float token. -/
def floatEncoder (q : ℚ) : List Nat :=
  if q.den = 1 then asciiBytes "i:" ++ fmtFloat q ++ [101]
  else asciiBytes "f:" ++ fmtFloat q ++ [122]

/-- `Encoder.encodeType` of the `part_000` revision. -/
def encodeType (v : GoVal) : Except EncPanic (List Nat) :=
  encodeTypeW boolEncoder floatEncoder v

/-- Package-level `Encode` of the `part_000` revision. -/
def Encode (v : GoVal) : EncResult := runEncode (encodeType v)

end Enc0

namespace Enc1

/-- `boolEncoder` of the `src/unnamed/part_001` revision: both branches
append the character `0`. -/
def boolEncoder (b : Bool) : List Nat :=
  asciiBytes "b:" ++ (if b then [48] else [48])

/-- `floatEncoder` of the `src/unnamed/part_001` revision: always the Float
token. -/
def floatEncoder (q : ℚ) : List Nat :=
  asciiBytes "f:" ++ fmtFloat q ++ [122]

/-- `Encoder.encodeType` of the `part_001` revision. -/
def encodeType (v : GoVal) : Except EncPanic (List Nat) :=
  encodeTypeW boolEncoder floatEncoder v

/-- Package-level `Encode` of the `part_001` revision. -/
def Encode (v : GoVal) : EncResult := runEncode (encodeType v)

end Enc1

/-- Faults raised while decoding.  `derr` models a panic carrying an `error`
value (a `*DecodeError`, a `strconv`/`base64` error, or a
`*reflect.ValueError` — `ValueError` has no `RuntimeError()` method, so it
is not a `runtime.Error` and falls through to `err = r.(error)`): the
`recover` block in `Decoder.Decode` converts it into the returned error.
`crash` models a re-panicked value — genuine `runtime.Error`s (out-of-range
indexing/slicing) and `string` panics are re-panicked by that block,
terminating the process.  `spin` is a model artifact marking exhausted
recursion fuel. -/
inductive DFault where
  | derr (msg : String)
  | crash (msg : String)
  | spin
  deriving DecidableEq

/-- Static Go types, as far as the decoder inspects them
(`reflect.StructField.Type`, `reflect.Type.Elem`). -/
inductive Ty where
  | tbool
  | tint
  | tfloat
  | tstr
  | tiface
  | tptr (t : Ty)
  | tmap
  | tslice (t : Ty)
  | tstruct (fields : List (List Nat × List Nat × Bool × Ty))

mutual
/-- A `reflect.Value` as the decoder manipulates it: the storage graph the
value refers to.  `invalid` is the zero `reflect.Value`
(`reflect.ValueOf(nil)`).  A `vptr` holds its pointee inline; mutation
through `Elem()` is modelled by rebuilding the pointer.  `vmap` is a
`map[string]interface{}` association list (entry order stands in for Go's
unspecified map order); `vslice` elements are untyped (the dynamic-type
checks of `reflect.Append`/`Set` beyond those the claims exercise are not
modelled). -/
inductive RVal where
  | invalid
  | vbool (b : Bool)
  | vint (n : Int)
  | vfloat (q : ℚ)
  | vstr (s : List Nat)
  | vptr (inner : Option RVal)
  | vmap (isNil : Bool) (entries : List (List Nat × Option RVal))
  | vslice (isNil : Bool) (elems : List RVal)
  | vstruct (fields : List SField)

/-- A struct field: declared name, tag override, exported flag, declared
type, current value. -/
inductive SField where
  | mk (name : List Nat) (tag : List Nat) (exported : Bool) (fty : Ty) (val : RVal)
end

/-- `reflect.Kind` of a modelled value. -/
inductive Kind where
  | kinvalid | kbool | kint | kfloat | kstr | kptr | kmap | kslice | kstruct
  deriving DecidableEq

def kindOf : RVal → Kind
  | .invalid => .kinvalid
  | .vbool _ => .kbool
  | .vint _ => .kint
  | .vfloat _ => .kfloat
  | .vstr _ => .kstr
  | .vptr _ => .kptr
  | .vmap _ _ => .kmap
  | .vslice _ _ => .kslice
  | .vstruct _ => .kstruct

mutual
/-- `reflect.Zero` of a type. -/
def zeroRVal : Ty → RVal
  | .tbool => .vbool false
  | .tint => .vint 0
  | .tfloat => .vfloat 0
  | .tstr => .vstr []
  | .tiface => .invalid
  | .tptr _ => .vptr none
  | .tmap => .vmap true []
  | .tslice _ => .vslice true []
  | .tstruct fs => .vstruct (zeroFields fs)

def zeroFields : List (List Nat × List Nat × Bool × Ty) → List SField
  | [] => []
  | (n, tg, ex, t) :: r => .mk n tg ex t (zeroRVal t) :: zeroFields r
end

/-- `reflect.Value.IsNil`: defined for pointer, map and slice kinds (and
chan/func/interface, which the model does not need); panics with a
`*reflect.ValueError` on every other kind, including the zero `Value` —
`ValueError` is not a `runtime.Error`, so `Decode`'s recover block returns
it as an error. -/
def isNilRes : RVal → Except DFault Bool
  | .invalid => .error (.derr "reflect: call of reflect.Value.IsNil on zero Value")
  | .vptr none => .ok true
  | .vptr (some _) => .ok false
  | .vmap b _ => .ok b
  | .vslice b _ => .ok b
  | _ => .error (.derr "reflect: call of reflect.Value.IsNil on non-nilable Value")

/-- `reflect.Value.Len`: valid for slice, map and string kinds here; on any
other kind the `*reflect.ValueError` panic is recovered into a returned
error. -/
def lenRes : RVal → Except DFault Nat
  | .vslice _ es => .ok es.length
  | .vmap _ en => .ok en.length
  | .vstr s => .ok s.length
  | _ => .error (.derr "reflect: call of reflect.Value.Len on invalid kind")

/-- `Decoder.peek`: `d.data[d.off]` — indexing past the end is a runtime
error (re-panicked, crashing the process).  The cursor `d.data`/`d.off` is
modelled by the remaining suffix `rest = data.drop off`. -/
def dpeek (rest : List Nat) : Except DFault Nat :=
  match rest with
  | [] => .error (.crash "runtime error: index out of range")
  | c :: _ => .ok c

/-- `Decoder.read(n)`: `d.data[off : off+n]` — slicing past the end is a
runtime error. -/
def dread (n : Nat) (rest : List Nat) : Except DFault (List Nat × List Nat) :=
  if n ≤ rest.length then .ok (rest.take n, rest.drop n)
  else .error (.crash "runtime error: slice bounds out of range")

/-- Index of the first occurrence of `ch` (the scan loop of `readUntil`). -/
def firstIdx (ch : Nat) : List Nat → Option Nat
  | [] => none
  | c :: r => if c = ch then some 0 else (firstIdx ch r).map (· + 1)

/-- `Decoder.readUntil(ch)`: the scanned `count` stays `0` both when `ch`
does not occur and when it occurs at the cursor, and in either case nothing
is consumed and the flag is `false`. -/
def readUntil (ch : Nat) (rest : List Nat) : List Nat × Bool × List Nat :=
  match firstIdx ch rest with
  | none => ([], false, rest)
  | some 0 => ([], false, rest)
  | some k => (rest.take k, true, rest.drop k)

/-- Result of one decoder step: (possibly partially) updated destination,
remaining input, and the fault that unwound the traversal, if any. -/
structure DOut where
  v : RVal
  rest : List Nat
  fault : Option DFault

/-- Result of `decodeTypeAndCreate`. -/
structure COut where
  val : RVal
  rest : List Nat
  fault : Option DFault

/-- Result of `fillMap`. -/
structure MOut where
  entries : List (List Nat × Option RVal)
  rest : List Nat
  fault : Option DFault

/-- Result of `fillStruct` / `setStructField`. -/
structure FOut where
  fields : List SField
  rest : List Nat
  fault : Option DFault

/-- `nilDecoder`: consume the terminator, leave the destination alone. -/
def nilDecoder (_key : List Nat) (v : RVal) (rest : List Nat) : DOut :=
  match dread 1 rest with
  | .ok (_, r) => ⟨v, r, none⟩
  | .error f => ⟨v, rest, some f⟩

/-- `boolDecoder`: `v.Elem().SetBool(!(d.peek() == '0'))` then `d.read(1)`.
`SetBool` on anything but a pointer to a bool cell panics with a
`*reflect.ValueError`, which the recover block returns as an error. -/
def boolDecoder (_key : List Nat) (v : RVal) (rest : List Nat) : DOut :=
  match dpeek rest with
  | .error f => ⟨v, rest, some f⟩
  | .ok c =>
    match v with
    | .vptr (some (.vbool _)) =>
      match dread 1 rest with
      | .ok (_, r) => ⟨.vptr (some (.vbool (!(c == 48)))), r, none⟩
      | .error f => ⟨v, rest, some f⟩
    | _ => ⟨v, rest, some (.derr "reflect: call of reflect.Value.SetBool on wrong kind")⟩

/-- `intDecoder`: digits up to `e`, `parseInt` (base 0), `SetInt`, consume
terminator.  `SetInt` on a non-integer destination cell — including a float
cell — panics with a `*reflect.ValueError`, which the recover block returns
as an error. -/
def intDecoder (_key : List Nat) (v : RVal) (rest : List Nat) : DOut :=
  match readUntil 101 rest with
  | (_, false, r) => ⟨v, r, some (.derr "could not find int end")⟩
  | (str, true, r) =>
    match goParseInt str with
    | none => ⟨v, r, some (.derr "strconv.ParseInt: parse error")⟩
    | some n =>
      match v with
      | .vptr (some (.vint _)) =>
        match dread 1 r with
        | .ok (_, r2) => ⟨.vptr (some (.vint n)), r2, none⟩
        | .error f => ⟨v, r, some f⟩
      | _ => ⟨v, r, some (.derr "reflect: call of reflect.Value.SetInt on wrong kind")⟩

/-- `floatDecoder`: digits up to `z`, `ParseFloat`, `SetFloat`, consume
terminator. -/
def floatDecoder (_key : List Nat) (v : RVal) (rest : List Nat) : DOut :=
  match readUntil 122 rest with
  | (_, false, r) => ⟨v, r, some (.derr "could not find float end")⟩
  | (str, true, r) =>
    match goParseFloat str with
    | none => ⟨v, r, some (.derr "strconv.ParseFloat: parse error")⟩
    | some q =>
      match v with
      | .vptr (some (.vfloat _)) =>
        match dread 1 r with
        | .ok (_, r2) => ⟨.vptr (some (.vfloat q)), r2, none⟩
        | .error f => ⟨v, r, some f⟩
      | _ => ⟨v, r, some (.derr "reflect: call of reflect.Value.SetFloat on wrong kind")⟩

/-- `stringDecoder` (`s` tag): read exactly `parseInt(key[1:])` raw bytes. -/
def stringDecoder (key : List Nat) (v : RVal) (rest : List Nat) : DOut :=
  match goParseInt (key.drop 1) with
  | none => ⟨v, rest, some (.derr "strconv.ParseInt: parse error")⟩
  | some n =>
    if n < 0 then ⟨v, rest, some (.crash "runtime error: slice bounds out of range")⟩
    else
      match dread n.toNat rest with
      | .error f => ⟨v, rest, some f⟩
      | .ok (s, r) =>
        match v with
        | .vptr (some (.vstr _)) => ⟨.vptr (some (.vstr s)), r, none⟩
        | _ => ⟨v, r, some (.derr "reflect: call of reflect.Value.SetString on wrong kind")⟩

/-- `unicodeDecoder` (`u` tag): read exactly `parseInt(key[1:])` characters,
base64-decode them (a decode failure is an `error` panic, hence a returned
error), `SetString`. -/
def unicodeDecoder (key : List Nat) (v : RVal) (rest : List Nat) : DOut :=
  match goParseInt (key.drop 1) with
  | none => ⟨v, rest, some (.derr "strconv.ParseInt: parse error")⟩
  | some n =>
    if n < 0 then ⟨v, rest, some (.crash "runtime error: slice bounds out of range")⟩
    else
      match dread n.toNat rest with
      | .error f => ⟨v, rest, some f⟩
      | .ok (s, r) =>
        match decB64 s with
        | none => ⟨v, r, some (.derr "base64: corrupt input")⟩
        | some bytes =>
          match v with
          | .vptr (some (.vstr _)) => ⟨.vptr (some (.vstr bytes)), r, none⟩
          | _ => ⟨v, r, some (.derr "reflect: call of reflect.Value.SetString on wrong kind")⟩

/-- `customDecoder`: an empty body — consumes nothing, touches nothing,
raises nothing. -/
def customDecoder (_key : List Nat) (v : RVal) (rest : List Nat) : DOut :=
  ⟨v, rest, none⟩

/-- `dictKey`: read a `k<len>:<literal>` token.  When the token read by
`readUntil` does not start with `k`, the token bytes are already consumed
but `false` is returned without consuming the `:`. -/
def dictKey (rest : List Nat) : List Nat × Bool × List Nat × Option DFault :=
  match readUntil 58 rest with
  | (_, false, r) => ([], false, r, none)
  | (key, true, r) =>
    match key with
    | [] => ([], false, r, none)
    | k0 :: krest =>
      if k0 = 107 then
        match dread 1 r with
        | .error f => ([], false, r, some f)
        | .ok (_, r1) =>
          match goParseInt krest with
          | none => ([], false, r1, some (.derr "strconv.ParseInt: parse error"))
          | some n =>
            if n < 0 then
              ([], false, r1, some (.crash "runtime error: slice bounds out of range"))
            else
              match dread n.toNat r1 with
              | .error f => ([], false, r1, some f)
              | .ok (s, r2) => (s, true, r2, none)
      else ([], false, r, none)

/-- Go map assignment `out[key] = v` on the association-list model. -/
def mapSet (entries : List (List Nat × Option RVal)) (key : List Nat) (v : Option RVal) :
    List (List Nat × Option RVal) :=
  match entries with
  | [] => [(key, v)]
  | (k, w) :: r => if k = key then (k, v) :: r else (k, w) :: mapSet r key v

/-- `v.FieldByName(name).Set(nv)` on the field-list model (first field with
the declared name). -/
def setFieldVal (fields : List SField) (name : List Nat) (nv : RVal) : List SField :=
  match fields with
  | [] => []
  | .mk n t e ty v :: r =>
    if n = name then .mk n t e ty nv :: r else .mk n t e ty v :: setFieldVal r name nv

/-- `structFieldsMap` lookup: wire key of a field is its tag override when
nonempty, else the name with the first byte lower-cased; unexported fields
(`PkgPath != ""`) do not participate.  Later fields overwrite earlier ones
in the Go map, so the last matching field wins. -/
def fieldLookup (fields : List SField) (key : List Nat) : Option SField :=
  match fields with
  | [] => none
  | .mk n t e ty v :: r =>
    match fieldLookup r key with
    | some f => some f
    | none =>
      if e ∧ fieldWireKey n t = key then some (.mk n t e ty v) else none

/-- `fillStructSlice`: its first statement `length := v.Len()` calls
`reflect.Value.Len` on the pointer-kinded `sliceValue`, which panics with a
`*reflect.ValueError` (recovered into a returned error); the function can
never get past it.  (It is in fact unreachable: `listDecoder` compares
`sliceValue.Type().Elem()` — the slice type itself, never `Struct`-kinded —
against `reflect.Struct`.) -/
def fillStructSlice (v : RVal) (rest : List Nat) : DOut :=
  ⟨v, rest, some (.derr "reflect: call of reflect.Value.Len on ptr Value")⟩

mutual
/-- `Decoder.decodeType`: returns silently at end of input; otherwise reads
the tag token up to `:` and dispatches on its first byte. -/
def decodeType (rest : List Nat) (v : RVal) (fuel : Nat) : DOut :=
  match fuel with
  | 0 => ⟨v, rest, some .spin⟩
  | fuel + 1 =>
    match rest with
    | [] => ⟨v, rest, none⟩
    | _ :: _ =>
      match readUntil 58 rest with
      | (_, false, r) => ⟨v, r, some (.derr "invalid utcode")⟩
      | (key, true, r) =>
        match dread 1 r with
        | .error f => ⟨v, r, some f⟩
        | .ok (_, r1) =>
          match key with
          | [] => ⟨v, r1, some (.derr "invalid utcode")⟩
          | k0 :: _ =>
            if k0 = 110 then nilDecoder key v r1
            else if k0 = 98 then boolDecoder key v r1
            else if k0 = 105 then intDecoder key v r1
            else if k0 = 102 then floatDecoder key v r1
            else if k0 = 115 then stringDecoder key v r1
            else if k0 = 117 then unicodeDecoder key v r1
            else if k0 = 100 then dictDecoder key v r1 fuel
            else if k0 = 108 then listDecoder key v r1 fuel
            else if k0 = 99 then customDecoder key v r1
            else
              match dpeek r1 with
              | .error f => ⟨v, r1, some f⟩
              | .ok _ => ⟨v, r1, some (.derr "invalid utcode type")⟩

/-- `Decoder.decodeTypeAndCreate`: like `decodeType` but allocates a typed
zero destination per tag; `reflect.ValueOf(nil)` (the zero `Value`) stands
for both the end-of-input result and the `n` tag's `nil` destination;
the `c` tag panics with a `*DecodeError`. -/
def decodeTypeAndCreate (rest : List Nat) (fuel : Nat) : COut :=
  match fuel with
  | 0 => ⟨.invalid, rest, some .spin⟩
  | fuel + 1 =>
    match rest with
    | [] => ⟨.invalid, rest, none⟩
    | _ :: _ =>
      match readUntil 58 rest with
      | (_, false, r) => ⟨.invalid, r, some (.derr "invalid utcode")⟩
      | (key, true, r) =>
        match dread 1 r with
        | .error f => ⟨.invalid, r, some f⟩
        | .ok (_, r1) =>
          match key with
          | [] => ⟨.invalid, r1, some (.derr "invalid utcode")⟩
          | k0 :: _ =>
            if k0 = 110 then
              let o := nilDecoder key .invalid r1
              ⟨.invalid, o.rest, o.fault⟩
            else if k0 = 98 then
              let o := boolDecoder key (.vptr (some (.vbool false))) r1
              ⟨o.v, o.rest, o.fault⟩
            else if k0 = 105 then
              let o := intDecoder key (.vptr (some (.vint 0))) r1
              ⟨o.v, o.rest, o.fault⟩
            else if k0 = 102 then
              let o := floatDecoder key (.vptr (some (.vfloat 0))) r1
              ⟨o.v, o.rest, o.fault⟩
            else if k0 = 115 then
              let o := stringDecoder key (.vptr (some (.vstr []))) r1
              ⟨o.v, o.rest, o.fault⟩
            else if k0 = 117 then
              let o := unicodeDecoder key (.vptr (some (.vstr []))) r1
              ⟨o.v, o.rest, o.fault⟩
            else if k0 = 100 then
              let o := dictDecoder key (.vptr (some (.vmap false []))) r1 fuel
              ⟨o.v, o.rest, o.fault⟩
            else if k0 = 108 then
              let o := listDecoder key (.vptr (some (.vslice false []))) r1 fuel
              ⟨o.v, o.rest, o.fault⟩
            else if k0 = 99 then
              ⟨.invalid, r1, some (.derr "custom type must be top-level")⟩
            else
              match dpeek r1 with
              | .error f => ⟨.invalid, r1, some f⟩
              | .ok _ => ⟨.invalid, r1, some (.derr "invalid utcode type")⟩

/-- `dictDecoder`: `v.IsNil()` first (a `*reflect.ValueError` panic on
struct and other non-nilable destinations, recovered into a returned
error), substitute a fresh `map[string]interface{}` for a
nil destination, unwrap pointers/interfaces by recursion, fill maps and
structs, re-assign a created map, consume the terminator. -/
def dictDecoder (key : List Nat) (v : RVal) (rest : List Nat) (fuel : Nat) : DOut :=
  match fuel with
  | 0 => ⟨v, rest, some .spin⟩
  | fuel + 1 =>
    match isNilRes v with
    | .error f => ⟨v, rest, some f⟩
    | .ok vnil =>
      let mapValue := if vnil then RVal.vmap false [] else v
      match mapValue with
      | .vptr none =>
        -- unreachable: a nil pointer has `vnil = true`, so `mapValue` is the
        -- fresh map; kept for totality
        ⟨v, rest, some (.derr "reflect: call of reflect.Value.IsNil on zero Value")⟩
      | .vptr (some x) =>
        let o := dictDecoder key x rest fuel
        ⟨.vptr (some o.v), o.rest, o.fault⟩
      | .vmap mnil entries =>
        let o := fillMap entries rest fuel
        match o.fault with
        | some f =>
          if vnil then ⟨v, o.rest, some f⟩
          else ⟨.vmap mnil o.entries, o.rest, some f⟩
        | none =>
          -- `if v.IsNil() { v.Set(mapValue) }`: when `vnil`, the filled fresh
          -- map is assigned through the (addressable) destination; when not,
          -- the destination was the map that was filled — either way the
          -- observable result is the filled map
          let filled := RVal.vmap mnil o.entries
          match dread 1 o.rest with
          | .error f => ⟨filled, o.rest, some f⟩
          | .ok (_, r2) => ⟨filled, r2, none⟩
      | .vstruct fields =>
        let o := fillStruct fields rest fuel
        match o.fault with
        | some f => ⟨.vstruct o.fields, o.rest, some f⟩
        | none =>
          match dread 1 o.rest with
          | .error f => ⟨.vstruct o.fields, o.rest, some f⟩
          | .ok (_, r2) => ⟨.vstruct o.fields, r2, none⟩
      | _ =>
        -- no switch arm matches: nothing is decoded, only `d.read(1)` runs
        match dread 1 rest with
        | .error f => ⟨v, rest, some f⟩
        | .ok (_, r2) => ⟨v, r2, none⟩

/-- `listDecoder`: destinations that are not pointer-kinded are silently
ignored (`isValidList`); for a nil pointer `v.Elem()` is the zero `Value`
and `IsNil()` on it panics with a `*reflect.ValueError` (recovered into a
returned error); a nil slice pointee is replaced by a fresh
`*[]interface{}` whose final re-assignment `v.Elem().Set(sliceValue)`
stores a pointer value into a slice-typed cell — `Value.assignTo` panics
with a `string`, which the recover block re-panics (process crash). -/
def listDecoder (_key : List Nat) (v : RVal) (rest : List Nat) (fuel : Nat) : DOut :=
  match fuel with
  | 0 => ⟨v, rest, some .spin⟩
  | fuel + 1 =>
    match v with
    | .vptr none => ⟨v, rest, some (.derr "reflect: call of reflect.Value.IsNil on zero Value")⟩
    | .vptr (some x) =>
      match isNilRes x with
      | .error f => ⟨v, rest, some f⟩
      | .ok enil =>
        let sliceValue := if enil then RVal.vptr (some (.vslice false [])) else v
        let pointee := if enil then RVal.vslice false [] else x
        if kindOf pointee = Kind.kstruct then
          let o := fillStructSlice sliceValue rest
          ⟨o.v, o.rest, o.fault⟩
        else
          let o := fillSlice sliceValue rest fuel
          match o.fault with
          | some f => if enil then ⟨v, o.rest, some f⟩ else ⟨o.v, o.rest, some f⟩
          | none =>
            if enil then
              ⟨v, o.rest,
                some (.crash "reflect.Set: value of type *[]interface is not assignable")⟩
            else
              match dread 1 o.rest with
              | .error f => ⟨o.v, o.rest, some f⟩
              | .ok (_, r2) => ⟨o.v, r2, none⟩
    | _ => ⟨v, rest, none⟩

/-- `fillSlice`: `length := v.Elem().Len()`, then the grow-or-overwrite
loop. -/
def fillSlice (v : RVal) (rest : List Nat) (fuel : Nat) : DOut :=
  match fuel with
  | 0 => ⟨v, rest, some .spin⟩
  | fuel + 1 =>
    match v with
    | .vptr (some container) =>
      match lenRes container with
      | .error f => ⟨v, rest, some f⟩
      | .ok length => fillSliceFrom 0 length v rest fuel
    | .vptr none => ⟨v, rest, some (.derr "reflect: call of reflect.Value.Len on zero Value")⟩
    | _ => ⟨v, rest, some (.derr "reflect: call of reflect.Value.Elem on wrong kind")⟩

/-- The loop body of `fillSlice`: stop at the terminator (left for the
caller to consume); append a created element beyond the initial length
(`Elem()` of the zero `Value` created for an `n` element panics with a
`*reflect.ValueError`, recovered into a returned error); overwrite in
place below it. -/
def fillSliceFrom (i length : Nat) (v : RVal) (rest : List Nat) (fuel : Nat) : DOut :=
  match fuel with
  | 0 => ⟨v, rest, some .spin⟩
  | fuel + 1 =>
    match dpeek rest with
    | .error f => ⟨v, rest, some f⟩
    | .ok c =>
      if c = 101 then ⟨v, rest, none⟩
      else if i ≥ length then
        let o := decodeTypeAndCreate rest fuel
        match o.fault with
        | some f => ⟨v, o.rest, some f⟩
        | none =>
          match o.val with
          | .invalid => ⟨v, o.rest, some (.derr "reflect: call of reflect.Value.Elem on zero Value")⟩
          | .vptr (some e) =>
            match v with
            | .vptr (some (.vslice sn es)) =>
              fillSliceFrom (i + 1) length (.vptr (some (.vslice sn (es ++ [e])))) o.rest fuel
            | _ => ⟨v, o.rest, some (.derr "reflect.Append: not a slice")⟩
          | _ => ⟨v, o.rest, some (.derr "reflect: call of reflect.Value.Elem on wrong kind")⟩
      else
        match v with
        | .vptr (some (.vslice sn es)) =>
          let cell := RVal.vptr (some (es.getD i .invalid))
          let o := decodeType rest cell fuel
          let es1 := match o.v with
            | .vptr (some nv) => es.set i nv
            | _ => es
          match o.fault with
          | some f => ⟨.vptr (some (.vslice sn es1)), o.rest, some f⟩
          | none => fillSliceFrom (i + 1) length (.vptr (some (.vslice sn es1))) o.rest fuel
        | _ => ⟨v, rest, some (.derr "reflect: call of reflect.Value.Index on wrong kind")⟩

/-- `fillMap`: read key/value pairs until the terminator is seen or
`dictKey` fails; values are decoded in create mode, an invalid created value
stores an untyped nil. -/
def fillMap (entries : List (List Nat × Option RVal)) (rest : List Nat) (fuel : Nat) : MOut :=
  match fuel with
  | 0 => ⟨entries, rest, some .spin⟩
  | fuel + 1 =>
    match dpeek rest with
    | .error f => ⟨entries, rest, some f⟩
    | .ok c =>
      if c = 101 then ⟨entries, rest, none⟩
      else
        match dictKey rest with
        | (_, false, r, some f) => ⟨entries, r, some f⟩
        | (_, false, r, none) => ⟨entries, r, none⟩
        | (key, true, r, _) =>
          let o := decodeTypeAndCreate r fuel
          match o.fault with
          | some f => ⟨entries, o.rest, some f⟩
          | none =>
            match o.val with
            | .invalid => fillMap (mapSet entries key none) o.rest fuel
            | .vptr (some x) => fillMap (mapSet entries key (some x)) o.rest fuel
            | _ =>
              ⟨entries, o.rest,
                some (.derr "reflect: call of reflect.Value.Interface on zero Value")⟩

/-- `fillStruct`: read key/value pairs; a key with no matching resolved
field is skipped with `continue` — without consuming the value that follows
it, so the next `dictKey` sees the value token, fails, and the loop breaks
silently. -/
def fillStruct (fields : List SField) (rest : List Nat) (fuel : Nat) : FOut :=
  match fuel with
  | 0 => ⟨fields, rest, some .spin⟩
  | fuel + 1 =>
    match dpeek rest with
    | .error f => ⟨fields, rest, some f⟩
    | .ok c =>
      if c = 101 then ⟨fields, rest, none⟩
      else
        match dictKey rest with
        | (_, false, r, some f) => ⟨fields, r, some f⟩
        | (_, false, r, none) => ⟨fields, r, none⟩
        | (key, true, r, _) =>
          match fieldLookup fields key with
          | none => fillStruct fields r fuel
          | some fld =>
            let o := setStructField fld fields r fuel
            match o.fault with
            | some f => ⟨o.fields, o.rest, some f⟩
            | none => fillStruct o.fields o.rest fuel

/-- `setStructField`: pointer fields get a fresh `reflect.New` destination
assigned on success; interface fields store the created dynamic value
(`Elem()` of an invalid created value panics with a `*reflect.ValueError`,
recovered into a returned error); all other fields are decoded in place
through `Addr()`, so partial mutations survive a later fault. -/
def setStructField (fld : SField) (fields : List SField) (rest : List Nat) (fuel : Nat) :
    FOut :=
  match fuel with
  | 0 => ⟨fields, rest, some .spin⟩
  | fuel + 1 =>
    match fld with
    | .mk name _tag _ex fty fval =>
      match fty with
      | .tptr elemTy =>
        let cell := RVal.vptr (some (zeroRVal elemTy))
        let o := decodeType rest cell fuel
        match o.fault with
        | some f => ⟨fields, o.rest, some f⟩
        | none => ⟨setFieldVal fields name o.v, o.rest, none⟩
      | .tiface =>
        let o := decodeTypeAndCreate rest fuel
        match o.fault with
        | some f => ⟨fields, o.rest, some f⟩
        | none =>
          match o.val with
          | .vptr (some x) => ⟨setFieldVal fields name x, o.rest, none⟩
          | _ => ⟨fields, o.rest, some (.derr "reflect: call of reflect.Value.Elem on zero Value")⟩
      | _ =>
        let cell := RVal.vptr (some fval)
        let o := decodeType rest cell fuel
        let nfields := match o.v with
          | .vptr (some nv) => setFieldVal fields name nv
          | _ => fields
        ⟨nfields, o.rest, o.fault⟩
end

/-- Observable outcome of `Decode`: the destination value (with whatever
mutations survived) and the fault, if any. -/
structure DecodeOut where
  v : RVal
  fault : Option DFault

/-- Modelled from the spec: `readAndMatch(3, "ut:")` is called by
`Decoder.Decode` but defined in no file under `src/`.  Per the spec, the
buffer must begin with the literal prefix `ut:` and its absence is a fatal
decode error. -/
def readAndMatch3 (data : List Nat) : Bool := data.take 3 = asciiBytes "ut:"

/-- `Decoder.Decode` with explicit recursion fuel: check the prefix, then
either bind into the destination or — when `value.IsNil()` — decode in
create mode and `value.Set(...)` the result; `reflect.ValueOf` never yields
an addressable value, so that `Set` panics with the `string`
`"reflect: reflect.Value.Set using unaddressable value"`, re-panicked by
the recover block (process crash); `IsNil` itself panics with a
`*reflect.ValueError` on a zero or non-nilable `value`, which the recover
block returns as an error. -/
def DecodeF (data : List Nat) (v : RVal) (fuel : Nat) : DecodeOut :=
  if readAndMatch3 data then
    let rest := data.drop 3
    match isNilRes v with
    | .error f => ⟨v, some f⟩
    | .ok true =>
      let r := decodeTypeAndCreate rest fuel
      match r.fault with
      | some f => ⟨v, some f⟩
      | none => ⟨v, some (.crash "reflect: reflect.Value.Set using unaddressable value")⟩
    | .ok false =>
      let r := decodeType rest v fuel
      ⟨r.v, r.fault⟩
  else ⟨v, some (.derr "invalid utcode")⟩

/-- Package-level `Decode` (and `Decoder.Decode`): the fuel `data.length + 1`
is always sufficient, since every loop iteration and recursion step of the
Go decoder consumes input. -/
def Decode (data : List Nat) (v : RVal) : DecodeOut := DecodeF data v (data.length + 1)

mutual
/-- A well-formed wire value per the grammar of §6 (claim C10): the `c` tag
is not part of the `value` production.  Payload byte lists are arbitrary:
well-formedness of the framing, not of the payload, is what the grammar
fixes. -/
inductive WVal where
  | wnil
  | wbool (b : Bool)
  | wint (n : Int)
  | wfloat (q : ℚ)
  | wstr (raw : List Nat)
  | wu (payload : List Nat)
  | wdict (ps : WPairs)
  | wlist (es : WList)

inductive WPairs where
  | pnil
  | pcons (key : List Nat) (v : WVal) (rest : WPairs)

inductive WList where
  | lnil
  | lcons (v : WVal) (rest : WList)
end

mutual
/-- Serialization of a well-formed wire value, following the grammar. -/
def ser : WVal → List Nat
  | .wnil => [110, 58, 101]
  | .wbool b => [98, 58, if b then 49 else 48]
  | .wint n => 105 :: 58 :: (fmtInt n ++ 101 :: [])
  | .wfloat q => 102 :: 58 :: (fmtFloat q ++ 122 :: [])
  | .wstr raw => 115 :: (natToDigits raw.length ++ 58 :: raw)
  | .wu payload => 117 :: (natToDigits payload.length ++ 58 :: payload)
  | .wdict ps => 100 :: 58 :: (serPairs ps ++ 101 :: [])
  | .wlist es => 108 :: 58 :: (serList es ++ 101 :: [])

def serPairs : WPairs → List Nat
  | .pnil => []
  | .pcons k v r => 107 :: (natToDigits k.length ++ 58 :: (k ++ (ser v ++ serPairs r)))

def serList : WList → List Nat
  | .lnil => []
  | .lcons v r => ser v ++ serList r
end

/-- Two runs of `decodeTypeAndCreate` on the same value bytes followed by
different tails agree on the created value and the fault, their residual
inputs differ only in the tail, and a fault-free run consumes the value
bytes exactly. -/
def RelC (t₁ t₂ : List Nat) (o₁ o₂ : COut) : Prop :=
  o₁.val = o₂.val ∧ o₁.fault = o₂.fault ∧
    ∃ u, o₁.rest = u ++ t₁ ∧ o₂.rest = u ++ t₂ ∧ (o₁.fault = none → u = [])

/-- The corresponding relation for `fillMap` results. -/
def RelM (t₁ t₂ : List Nat) (o₁ o₂ : MOut) : Prop :=
  o₁.entries = o₂.entries ∧ o₁.fault = o₂.fault ∧
    ∃ u, o₁.rest = u ++ t₁ ∧ o₂.rest = u ++ t₂ ∧ (o₁.fault = none → u = [])

/-- The corresponding relation for `fillSliceFrom` results. -/
def RelS (t₁ t₂ : List Nat) (o₁ o₂ : DOut) : Prop :=
  o₁.v = o₂.v ∧ o₁.fault = o₂.fault ∧
    ∃ u, o₁.rest = u ++ t₁ ∧ o₂.rest = u ++ t₂ ∧ (o₁.fault = none → u = [])

/-- Create-mode locality of one wire value. -/
def CreateLoc (w : WVal) : Prop :=
  ∀ fuel t₁ t₂,
    RelC t₁ t₂ (decodeTypeAndCreate (ser w ++ t₁) fuel)
      (decodeTypeAndCreate (ser w ++ t₂) fuel)

/-- Create-mode locality of a dictionary body. -/
def PairsLoc (ps : WPairs) : Prop :=
  ∀ fuel entries z₁ z₂,
    RelM (101 :: z₁) (101 :: z₂)
      (fillMap entries (serPairs ps ++ 101 :: z₁) fuel)
      (fillMap entries (serPairs ps ++ 101 :: z₂) fuel)

/-- Create-mode locality of a list body. -/
def ListLoc (es : WList) : Prop :=
  ∀ fuel i length, length ≤ i → ∀ sn acc z₁ z₂,
    RelS (101 :: z₁) (101 :: z₂)
      (fillSliceFrom i length (.vptr (some (.vslice sn acc))) (serList es ++ 101 :: z₁) fuel)
      (fillSliceFrom i length (.vptr (some (.vslice sn acc))) (serList es ++ 101 :: z₂) fuel)

theorem natToDigitsF_congr (f1 : Nat) : ∀ (f2 n : Nat), n ≤ f1 → n ≤ f2 →
    natToDigitsF f1 n = natToDigitsF f2 n := by
  induction f1 with
  | zero =>
    intro f2 n h1 h2
    have hn : n = 0 := by omega
    subst hn
    cases f2 with
    | zero => rfl
    | succ g => simp [natToDigitsF]
  | succ g ih =>
    intro f2 n h1 h2
    cases f2 with
    | zero =>
      have hn : n = 0 := by omega
      subst hn
      simp [natToDigitsF]
    | succ g2 =>
      by_cases hn : n < 10
      · simp [natToDigitsF, hn]
      · simp only [natToDigitsF, if_neg hn]
        have hr : n / 10 ≤ g := by omega
        have hr2 : n / 10 ≤ g2 := by omega
        rw [ih g2 (n / 10) hr hr2]

theorem natToDigits_lt (n : Nat) (h : n < 10) : natToDigits n = [48 + n] := by
  rw [natToDigits]
  cases n with
  | zero => rfl
  | succ m => simp [natToDigitsF, h]

theorem natToDigits_ge (n : Nat) (h : ¬ n < 10) :
    natToDigits n = natToDigits (n / 10) ++ [48 + n % 10] := by
  obtain ⟨m, rfl⟩ : ∃ m, n = m + 1 := ⟨n - 1, by omega⟩
  rw [natToDigits, natToDigits]
  simp only [natToDigitsF, if_neg h]
  congr 1
  exact natToDigitsF_congr m ((m + 1) / 10) ((m + 1) / 10) (by omega) (by omega)

theorem natToDigits_mem (n : Nat) : ∀ c ∈ natToDigits n, 48 ≤ c ∧ c ≤ 57 := by
  induction n using Nat.strong_induction_on with
  | _ n ih =>
    by_cases h : n < 10
    · rw [natToDigits_lt n h]; intro c hc; simp at hc; omega
    · rw [natToDigits_ge n h]
      intro c hc
      rcases List.mem_append.mp hc with h1 | h2
      · exact ih (n / 10) (by omega) c h1
      · simp at h2; have := Nat.mod_lt n (show 0 < 10 by omega); omega

theorem natToDigits_ne_nil (n : Nat) : natToDigits n ≠ [] := by
  by_cases h : n < 10
  · rw [natToDigits_lt n h]; simp
  · rw [natToDigits_ge n h]; simp

theorem natToDigits_head_pos (n : Nat) (hn : n ≠ 0) :
    ∃ c cs, natToDigits n = c :: cs ∧ 49 ≤ c ∧ c ≤ 57 := by
  induction n using Nat.strong_induction_on with
  | _ n ih =>
    by_cases h : n < 10
    · exact ⟨48 + n, [], by rw [natToDigits_lt n h], by omega, by omega⟩
    · rw [natToDigits_ge n h]
      obtain ⟨c, cs, heq, h1, h2⟩ := ih (n / 10) (by omega) (by omega)
      exact ⟨c, cs ++ [48 + n % 10], by rw [heq]; simp, h1, h2⟩

theorem digitsToNat_append (base acc : Nat) (xs ys : List Nat) :
    digitsToNat base acc (xs ++ ys) =
      (digitsToNat base acc xs).bind (fun a => digitsToNat base a ys) := by
  induction xs generalizing acc with
  | nil => simp [digitsToNat]
  | cons c r ih =>
    simp only [List.cons_append, digitsToNat]
    cases baseDigitVal base c with
    | none => simp
    | some d => simp [ih]

theorem digitsToNat_natToDigits (n : Nat) :
    ∀ acc, digitsToNat 10 acc (natToDigits n) =
      some (acc * 10 ^ (natToDigits n).length + n) := by
  induction n using Nat.strong_induction_on with
  | _ n ih =>
    intro acc
    by_cases h : n < 10
    · rw [natToDigits_lt n h]
      have hb : baseDigitVal 10 (48 + n) = some n := by
        unfold baseDigitVal
        rw [if_pos (by omega : 48 ≤ 48 + n ∧ 48 + n ≤ 57),
          if_pos (by omega : 48 + n - 48 < 10)]
        congr 1; omega
      simp [digitsToNat, hb]
    · rw [natToDigits_ge n h, digitsToNat_append, ih (n / 10) (by omega) acc]
      have hm : n % 10 < 10 := Nat.mod_lt n (by omega)
      have hb : baseDigitVal 10 (48 + n % 10) = some (n % 10) := by
        unfold baseDigitVal
        rw [if_pos (by omega : 48 ≤ 48 + n % 10 ∧ 48 + n % 10 ≤ 57),
          if_pos (by omega : 48 + n % 10 - 48 < 10)]
        congr 1; omega
      simp only [Option.bind, digitsToNat, hb, List.length_append, List.length_cons,
        List.length_nil, Nat.zero_add]
      congr 1
      calc (acc * 10 ^ (natToDigits (n / 10)).length + n / 10) * 10 + n % 10
          = acc * (10 ^ (natToDigits (n / 10)).length * 10) + (n / 10 * 10 + n % 10) := by ring
        _ = acc * 10 ^ ((natToDigits (n / 10)).length + 1) + n := by
            rw [Nat.div_add_mod', pow_succ]

theorem digitsToNat0_natToDigits (n : Nat) : digitsToNat 10 0 (natToDigits n) = some n := by
  rw [digitsToNat_natToDigits]
  simp

theorem parseUint0_natToDigits (n : Nat) : parseUint0 (natToDigits n) = some n := by
  by_cases h0 : n = 0
  · subst h0; rw [natToDigits_lt 0 (by omega)]; simp [parseUint0]
  · obtain ⟨c, cs, heq, h1, h2⟩ := natToDigits_head_pos n h0
    rw [heq, parseUint0.eq_def]
    have hc48 : ¬ c = 48 := by omega
    simp only [hc48, if_false]
    rw [← heq, digitsToNat_natToDigits n 0]
    simp

theorem goParseInt_fmtInt (n : Int) (hlo : -(2 ^ 63) ≤ n) (hhi : n ≤ 2 ^ 63 - 1) :
    goParseInt (fmtInt n) = some n := by
  by_cases hneg : n < 0
  · have : fmtInt n = 45 :: natToDigits n.natAbs := by rw [fmtInt, if_pos hneg]
    rw [this, goParseInt]
    simp only [show ¬ (45 : Nat) = 43 by omega, if_false, if_pos rfl]
    rw [parseUint0_natToDigits]
    have hr : n.natAbs ≤ 2 ^ 63 := by omega
    show (if n.natAbs ≤ 2 ^ 63 then some (-(n.natAbs : Int)) else none) = some n
    rw [if_pos hr]
    have : (n.natAbs : Int) = -n := by omega
    rw [this, neg_neg]
  · have : fmtInt n = natToDigits n.toNat := by rw [fmtInt, if_neg hneg]
    rw [this]
    have hne : natToDigits n.toNat ≠ [] := natToDigits_ne_nil _
    obtain ⟨c, cs, heq⟩ : ∃ c cs, natToDigits n.toNat = c :: cs := by
      cases hcs : natToDigits n.toNat with
      | nil => exact absurd hcs hne
      | cons a b => exact ⟨a, b, rfl⟩
    have hcdig := natToDigits_mem n.toNat c (by rw [heq]; simp)
    rw [heq, goParseInt]
    have hc43 : ¬ c = 43 := by omega
    have hc45 : ¬ c = 45 := by omega
    simp only [hc43, if_false, hc45]
    rw [← heq, parseUint0_natToDigits]
    have hr : n.toNat ≤ 2 ^ 63 - 1 := by omega
    show (if n.toNat ≤ 2 ^ 63 - 1 then some ((n.toNat : Int)) else none) = some n
    rw [if_pos hr]
    have : (n.toNat : Int) = n := by omega
    rw [this]

theorem b64Index_b64Char : ∀ i, i < 64 → b64Index (b64Char i) = some i := by decide

theorem b64Char_ne_pad : ∀ i, i < 64 → ¬ b64Char i = b64Pad := by decide

theorem encB64_length (bs : List Nat) :
    (encB64 bs).length = 4 * ((bs.length + 2) / 3) := by
  induction bs using encB64.induct with
  | case1 => simp [encB64]
  | case2 b0 => simp [encB64]
  | case3 b0 b1 => simp [encB64]
  | case4 b0 b1 b2 rest ih =>
    simp only [encB64, List.length_cons, ih]
    omega

theorem decB64_encB64 (bs : List Nat) (h : ∀ b ∈ bs, b < 256) :
    decB64 (encB64 bs) = some bs := by
  induction bs using encB64.induct with
  | case1 => simp [encB64, decB64]
  | case2 b0 =>
    have hb0 : b0 < 256 := h b0 (by simp)
    have h1 : b64Index (b64Char (b0 / 4)) = some (b0 / 4) :=
      b64Index_b64Char _ (by omega)
    have h2 : b64Index (b64Char (b0 % 4 * 16)) = some (b0 % 4 * 16) :=
      b64Index_b64Char _ (by omega)
    simp [encB64, decB64, h1, h2]
    omega
  | case3 b0 b1 =>
    have hb0 : b0 < 256 := h b0 (by simp)
    have hb1 : b1 < 256 := h b1 (by simp)
    have h1 : b64Index (b64Char (b0 / 4)) = some (b0 / 4) :=
      b64Index_b64Char _ (by omega)
    have h2 : b64Index (b64Char (b0 % 4 * 16 + b1 / 16)) = some (b0 % 4 * 16 + b1 / 16) :=
      b64Index_b64Char _ (by omega)
    have h3 : b64Index (b64Char (b1 % 16 * 4)) = some (b1 % 16 * 4) :=
      b64Index_b64Char _ (by omega)
    have hne : ¬ b64Char (b1 % 16 * 4) = b64Pad := b64Char_ne_pad _ (by omega)
    simp [encB64, decB64, h1, h2, h3, hne]
    omega
  | case4 b0 b1 b2 rest ih =>
    have hb0 : b0 < 256 := h b0 (by simp)
    have hb1 : b1 < 256 := h b1 (by simp)
    have hb2 : b2 < 256 := h b2 (by simp)
    have h1 : b64Index (b64Char (b0 / 4)) = some (b0 / 4) :=
      b64Index_b64Char _ (by omega)
    have h2 : b64Index (b64Char (b0 % 4 * 16 + b1 / 16)) = some (b0 % 4 * 16 + b1 / 16) :=
      b64Index_b64Char _ (by omega)
    have h3 : b64Index (b64Char (b1 % 16 * 4 + b2 / 64)) = some (b1 % 16 * 4 + b2 / 64) :=
      b64Index_b64Char _ (by omega)
    have h4 : b64Index (b64Char (b2 % 64)) = some (b2 % 64) :=
      b64Index_b64Char _ (by omega)
    have hne3 : ¬ b64Char (b1 % 16 * 4 + b2 / 64) = b64Pad := b64Char_ne_pad _ (by omega)
    have hne4 : ¬ b64Char (b2 % 64) = b64Pad := b64Char_ne_pad _ (by omega)
    have hrest : ∀ b ∈ rest, b < 256 := fun b hb => h b (by simp [hb])
    simp [encB64, decB64, h1, h2, h3, h4, hne3, hne4, ih hrest]
    omega

theorem digitsToNat_replicate_zero (z acc : Nat) :
    digitsToNat 10 acc (List.replicate z 48) = some (acc * 10 ^ z) := by
  induction z generalizing acc with
  | zero => simp [digitsToNat]
  | succ w ih =>
    have hb : baseDigitVal 10 48 = some 0 := by decide
    simp only [List.replicate_succ, digitsToNat, hb, ih]
    rw [pow_succ]
    congr 1
    ring

theorem natToDigits_length_le (k x : Nat) (hk : 1 ≤ k) (hx : x < 10 ^ k) :
    (natToDigits x).length ≤ k := by
  induction k generalizing x with
  | zero => omega
  | succ j ih =>
    by_cases h : x < 10
    · rw [natToDigits_lt x h]; simp
    · have hj : 1 ≤ j := by
        by_contra hj0
        have : j = 0 := by omega
        subst this
        simp at hx
        omega
      rw [natToDigits_ge x h]
      have hxd : x / 10 < 10 ^ j := by
        have hp : 10 ^ (j + 1) = 10 ^ j * 10 := pow_succ 10 j
        omega
      have := ih (x / 10) hj hxd
      simp only [List.length_append, List.length_cons, List.length_nil]
      omega

theorem takeWhile_digits_dot (xs rest : List Nat) (h : ∀ x ∈ xs, 48 ≤ x ∧ x ≤ 57) :
    (xs ++ 46 :: rest).takeWhile (fun x => x != 46) = xs ∧
      (xs ++ 46 :: rest).dropWhile (fun x => x != 46) = 46 :: rest := by
  induction xs with
  | nil => simp [List.takeWhile, List.dropWhile]
  | cons a t ih =>
    have ha := h a (by simp)
    have hane : (a != 46) = true := by
      simp only [bne_iff_ne, ne_eq]
      omega
    have ht : ∀ x ∈ t, 48 ≤ x ∧ x ≤ 57 := fun x hx => h x (by simp [hx])
    obtain ⟨ih1, ih2⟩ := ih ht
    constructor
    · simp only [List.cons_append, List.takeWhile_cons, hane, if_true, ih1]
    · simp only [List.cons_append, List.dropWhile_cons, hane, if_true, ih2]

theorem parseDecDigits_of_ne_nil (s : List Nat) (h : s ≠ []) :
    parseDecDigits s = digitsToNat 10 0 s := by
  match s, h with
  | c :: cs, _ => rfl

theorem parseDecDigits_natToDigits (n : Nat) : parseDecDigits (natToDigits n) = some n := by
  rw [parseDecDigits_of_ne_nil _ (natToDigits_ne_nil n), digitsToNat_natToDigits n 0]
  simp

theorem natDigitsPadded_ne_nil (k x : Nat) : natDigitsPadded k x ≠ [] := by
  intro hemp
  rw [natDigitsPadded] at hemp
  rcases List.append_eq_nil.mp hemp with ⟨-, h2⟩
  exact natToDigits_ne_nil x h2

theorem parseDecDigits_padded (k x : Nat) : parseDecDigits (natDigitsPadded k x) = some x := by
  rw [parseDecDigits_of_ne_nil _ (natDigitsPadded_ne_nil k x), natDigitsPadded,
    digitsToNat_append, digitsToNat_replicate_zero]
  simp [digitsToNat_natToDigits x 0]

theorem natDigitsPadded_length (k x : Nat) (hk : 1 ≤ k) (hx : x < 10 ^ k) :
    (natDigitsPadded k x).length = k := by
  have := natToDigits_length_le k x hk hx
  simp only [natDigitsPadded, List.length_append, List.length_replicate]
  omega

theorem natDigitsPadded_mem (k x : Nat) : ∀ c ∈ natDigitsPadded k x, 48 ≤ c ∧ c ≤ 57 := by
  intro c hc
  rcases List.mem_append.mp hc with h1 | h2
  · have := List.eq_of_mem_replicate h1
    omega
  · exact natToDigits_mem x c h2

theorem takeWhile_digits_all (xs : List Nat) (h : ∀ x ∈ xs, 48 ≤ x ∧ x ≤ 57) :
    xs.takeWhile (fun x => x != 46) = xs ∧ xs.dropWhile (fun x => x != 46) = [] := by
  induction xs with
  | nil => simp
  | cons a t ih =>
    have ha := h a (by simp)
    have hane : (a != 46) = true := by
      simp only [bne_iff_ne, ne_eq]
      omega
    obtain ⟨ih1, ih2⟩ := ih (fun x hx => h x (by simp [hx]))
    constructor
    · simp only [List.takeWhile_cons, hane, if_true, ih1]
    · simp only [List.dropWhile_cons, hane, if_true, ih2]

theorem decExp_dvd (d k : Nat) (hk : decExp d = some k) : d ∣ 10 ^ k := by
  have h := List.find?_some hk
  simp only [beq_iff_eq] at h
  exact Nat.dvd_of_mod_eq_zero h

/-- The sign factor recovered by the parser matches the formatted sign. -/
theorem sign_natAbs (q : ℚ) :
    (if q < 0 then (-1 : ℚ) else 1) * (q.num.natAbs : ℚ) = (q.num : ℚ) := by
  have hcast : ((q.num.natAbs : ℚ)) = (((q.num.natAbs : ℤ) : ℚ)) :=
    (Int.cast_natCast q.num.natAbs).symm
  by_cases hq : q < 0
  · have hn : q.num < 0 := Rat.num_neg.mpr hq
    have habs : (q.num.natAbs : ℤ) = -q.num := by omega
    rw [if_pos hq, hcast, habs]
    push_cast
    ring
  · have hn : 0 ≤ q.num := Rat.num_nonneg.mpr (le_of_not_lt hq)
    have habs : (q.num.natAbs : ℤ) = q.num := by omega
    rw [if_neg hq, hcast, habs]
    ring

theorem goParseFloat_digits (ds : List Nat) (n : Nat)
    (hdig : ∀ x ∈ ds, 48 ≤ x ∧ x ≤ 57) (hne : ds ≠ [])
    (hp : digitsToNat 10 0 ds = some n) :
    goParseFloat ds = some ((n : ℚ)) := by
  obtain ⟨c, cs, hcons⟩ : ∃ c cs, ds = c :: cs := by
    cases ds with
    | nil => exact absurd rfl hne
    | cons a b => exact ⟨a, b, rfl⟩
  subst hcons
  have hc := hdig c (by simp)
  have h45 : ¬ (c = 45 ∨ c = 43) := by omega
  have hc45 : ¬ c = 45 := by omega
  obtain ⟨ht, hd⟩ := takeWhile_digits_all (c :: cs) hdig
  simp only [goParseFloat, if_neg h45, ht, hd,
    parseDecDigits_of_ne_nil (c :: cs) hne, hp, Option.map_some, if_neg hc45]
  simp

theorem goParseFloat_neg_digits (ds : List Nat) (n : Nat)
    (hdig : ∀ x ∈ ds, 48 ≤ x ∧ x ≤ 57) (hne : ds ≠ [])
    (hp : digitsToNat 10 0 ds = some n) :
    goParseFloat (45 :: ds) = some (-(n : ℚ)) := by
  obtain ⟨ht, hd⟩ := takeWhile_digits_all ds hdig
  simp [goParseFloat, ht, hd, parseDecDigits_of_ne_nil ds hne, hp]

theorem goParseFloat_dotted (A P : List Nat) (a b : Nat)
    (hAdig : ∀ x ∈ A, 48 ≤ x ∧ x ≤ 57) (hAne : A ≠ [])
    (hPne : P ≠ [])
    (hA : digitsToNat 10 0 A = some a) (hP : digitsToNat 10 0 P = some b) :
    goParseFloat (A ++ 46 :: P) = some (((a : ℚ) * 10 ^ P.length + b) / 10 ^ P.length) := by
  obtain ⟨c, cs, hcons⟩ : ∃ c cs, A = c :: cs := by
    cases A with
    | nil => exact absurd rfl hAne
    | cons x y => exact ⟨x, y, rfl⟩
  subst hcons
  have hc := hAdig c (by simp)
  have h45 : ¬ (c = 45 ∨ c = 43) := by omega
  have hc45 : ¬ c = 45 := by omega
  obtain ⟨ht, hd⟩ := takeWhile_digits_dot (c :: cs) P hAdig
  rw [List.cons_append]
  simp only [goParseFloat, if_neg h45]
  rw [← List.cons_append, ht, hd]
  simp only [parseDecDigits_of_ne_nil (c :: cs) hAne, parseDecDigits_of_ne_nil P hPne, hA, hP,
    if_neg hc45, one_mul]

theorem goParseFloat_neg_dotted (A P : List Nat) (a b : Nat)
    (hAdig : ∀ x ∈ A, 48 ≤ x ∧ x ≤ 57) (hAne : A ≠ [])
    (hPne : P ≠ [])
    (hA : digitsToNat 10 0 A = some a) (hP : digitsToNat 10 0 P = some b) :
    goParseFloat (45 :: (A ++ 46 :: P)) =
      some (-(((a : ℚ) * 10 ^ P.length + b) / 10 ^ P.length)) := by
  obtain ⟨ht, hd⟩ := takeWhile_digits_dot A P hAdig
  simp [goParseFloat, ht, hd,
    parseDecDigits_of_ne_nil A hAne, parseDecDigits_of_ne_nil P hPne, hA, hP]

/-- Round trip of the float model: parsing the formatted decimal recovers
the rational exactly, whenever the denominator has a finite decimal
expansion (true of every float64 value). -/
theorem goParseFloat_fmtFloat (q : ℚ) (k : Nat) (hk : decExp q.den = some k) :
    goParseFloat (fmtFloat q) = some q := by
  have hdvd : q.den ∣ 10 ^ k := decExp_dvd q.den k hk
  have hdvd2 : q.den ∣ q.num.natAbs * 10 ^ k := Dvd.dvd.mul_left hdvd _
  have hm : q.num.natAbs * 10 ^ k / q.den * q.den = q.num.natAbs * 10 ^ k :=
    Nat.div_mul_cancel hdvd2
  have hq' : ((q.num : ℚ)) / ((q.den : ℚ)) = q := Rat.num_div_den q
  have hden0 : ((q.den : ℚ)) ≠ 0 := by exact_mod_cast q.den_ne_zero
  by_cases hk0 : k = 0
  · subst hk0
    have hden1 : q.den = 1 := Nat.dvd_one.mp (by simpa using hdvd)
    have hmv : q.num.natAbs * 10 ^ 0 / q.den = q.num.natAbs := by
      rw [hden1, pow_zero, mul_one, Nat.div_one]
    have hqn : ((q.num.natAbs : ℚ)) * (if q < 0 then (-1 : ℚ) else 1) = q := by
      rw [mul_comm, sign_natAbs]
      rw [hden1] at hq'
      simpa using hq'
    rw [fmtFloat]
    rw [hk]
    simp only [eq_self_iff_true, if_true, hmv]
    by_cases hq : q < 0
    · rw [if_pos hq, List.singleton_append,
        goParseFloat_neg_digits (natToDigits q.num.natAbs) q.num.natAbs (natToDigits_mem _)
          (natToDigits_ne_nil _) (digitsToNat0_natToDigits _)]
      rw [if_pos hq] at hqn
      congr 1
      linarith [hqn]
    · rw [if_neg hq, List.nil_append,
        goParseFloat_digits (natToDigits q.num.natAbs) q.num.natAbs (natToDigits_mem _)
          (natToDigits_ne_nil _) (digitsToNat0_natToDigits _)]
      rw [if_neg hq] at hqn
      rw [mul_one] at hqn
      rw [hqn]
  · have hkpos : 1 ≤ k := by omega
    set m := q.num.natAbs * 10 ^ k / q.den with hmdef
    have hp10 : (0 : Nat) < 10 ^ k := Nat.pos_pow_of_pos k (by omega)
    have hmodlt : m % 10 ^ k < 10 ^ k := Nat.mod_lt m hp10
    have hPlen : (natDigitsPadded k (m % 10 ^ k)).length = k :=
      natDigitsPadded_length k (m % 10 ^ k) hkpos hmodlt
    have hA : digitsToNat 10 0 (natToDigits (m / 10 ^ k)) = some (m / 10 ^ k) := by
      rw [digitsToNat_natToDigits]; simp
    have hP : digitsToNat 10 0 (natDigitsPadded k (m % 10 ^ k)) = some (m % 10 ^ k) := by
      rw [← parseDecDigits_of_ne_nil _ (natDigitsPadded_ne_nil _ _)]
      exact parseDecDigits_padded k (m % 10 ^ k)
    have hval : (((m / 10 ^ k : Nat) : ℚ) * 10 ^ k + ((m % 10 ^ k : Nat) : ℚ)) = (m : ℚ) := by
      exact_mod_cast Nat.div_add_mod' m (10 ^ k)
    have h10 : ((10 : ℚ)) ^ k ≠ 0 := by positivity
    have hfrac : (m : ℚ) / (10 : ℚ) ^ k = ((q.num.natAbs : ℚ)) / ((q.den : ℚ)) := by
      rw [div_eq_div_iff h10 hden0]
      exact_mod_cast hm
    have hfinal : (if q < 0 then (-1 : ℚ) else 1) * ((m : ℚ) / (10 : ℚ) ^ k) = q := by
      rw [hfrac, ← mul_div_assoc, sign_natAbs, hq']
    rw [fmtFloat]
    rw [hk]
    simp only [if_neg hk0, ← hmdef]
    by_cases hq : q < 0
    · rw [if_pos hq, List.singleton_append, List.cons_append,
        goParseFloat_neg_dotted (natToDigits (m / 10 ^ k)) (natDigitsPadded k (m % 10 ^ k))
          (m / 10 ^ k) (m % 10 ^ k) (natToDigits_mem _)
          (natToDigits_ne_nil _) (natDigitsPadded_ne_nil _ _) hA hP, hPlen]
      rw [if_pos hq, neg_one_mul] at hfinal
      rw [hval, hfinal]
    · rw [if_neg hq, List.nil_append,
        goParseFloat_dotted (natToDigits (m / 10 ^ k)) (natDigitsPadded k (m % 10 ^ k))
          (m / 10 ^ k) (m % 10 ^ k) (natToDigits_mem _)
          (natToDigits_ne_nil _) (natDigitsPadded_ne_nil _ _) hA hP, hPlen]
      rw [if_neg hq, one_mul] at hfinal
      rw [hval, hfinal]

theorem firstIdx_append (ch : Nat) (a r : List Nat) (hch : ch ∉ a) :
    firstIdx ch (a ++ ch :: r) = some a.length := by
  induction a with
  | nil => simp [firstIdx]
  | cons x t ih =>
    have hx : ¬ x = ch := by
      intro h
      exact hch (by simp [h])
    have ht : ch ∉ t := fun h => hch (by simp [h])
    simp only [List.cons_append, firstIdx, hx, if_false, List.append_eq, ih ht,
      List.length_cons]
    rfl

theorem readUntil_hit (ch : Nat) (a r : List Nat) (hne : a ≠ []) (hch : ch ∉ a) :
    readUntil ch (a ++ ch :: r) = (a, true, ch :: r) := by
  rw [readUntil, firstIdx_append ch a r hch]
  have hlen : a.length ≠ 0 := by
    intro h
    exact hne (List.eq_nil_of_length_eq_zero h)
  obtain ⟨m, hm⟩ : ∃ m, a.length = m + 1 := ⟨a.length - 1, by omega⟩
  rw [hm]
  simp only [← hm]
  rw [List.take_left, List.drop_left]

theorem dread_one (c : Nat) (r : List Nat) : dread 1 (c :: r) = .ok ([c], r) := by
  simp [dread]

theorem dread_exact (a r : List Nat) : dread a.length (a ++ r) = .ok (a, r) := by
  simp only [dread, List.length_append]
  rw [if_pos (by omega)]
  rw [List.take_left, List.drop_left]

theorem decodeType_cons (k0 : Nat) (body : List Nat) (v : RVal) (fuel : Nat)
    (hk : ¬ k0 = 58) :
    decodeType (k0 :: 58 :: body) v (fuel + 1) =
      (if k0 = 110 then nilDecoder [k0] v body
      else if k0 = 98 then boolDecoder [k0] v body
      else if k0 = 105 then intDecoder [k0] v body
      else if k0 = 102 then floatDecoder [k0] v body
      else if k0 = 115 then stringDecoder [k0] v body
      else if k0 = 117 then unicodeDecoder [k0] v body
      else if k0 = 100 then dictDecoder [k0] v body fuel
      else if k0 = 108 then listDecoder [k0] v body fuel
      else if k0 = 99 then customDecoder [k0] v body
      else
        match dpeek body with
        | .error f => ⟨v, body, some f⟩
        | .ok _ => ⟨v, body, some (.derr "invalid utcode type")⟩) := by
  have hr : readUntil 58 ([k0] ++ 58 :: body) = ([k0], true, 58 :: body) :=
    readUntil_hit 58 [k0] body (by simp) (by simp [Ne.symm]; omega)
  simp only [List.singleton_append] at hr
  rw [decodeType, hr]
  simp only [dread_one]

theorem decodeTypeAndCreate_cons (k0 : Nat) (body : List Nat) (fuel : Nat)
    (hk : ¬ k0 = 58) :
    decodeTypeAndCreate (k0 :: 58 :: body) (fuel + 1) =
      (if k0 = 110 then
        let o := nilDecoder [k0] .invalid body
        ⟨.invalid, o.rest, o.fault⟩
      else if k0 = 98 then
        let o := boolDecoder [k0] (.vptr (some (.vbool false))) body
        ⟨o.v, o.rest, o.fault⟩
      else if k0 = 105 then
        let o := intDecoder [k0] (.vptr (some (.vint 0))) body
        ⟨o.v, o.rest, o.fault⟩
      else if k0 = 102 then
        let o := floatDecoder [k0] (.vptr (some (.vfloat 0))) body
        ⟨o.v, o.rest, o.fault⟩
      else if k0 = 115 then
        let o := stringDecoder [k0] (.vptr (some (.vstr []))) body
        ⟨o.v, o.rest, o.fault⟩
      else if k0 = 117 then
        let o := unicodeDecoder [k0] (.vptr (some (.vstr []))) body
        ⟨o.v, o.rest, o.fault⟩
      else if k0 = 100 then
        let o := dictDecoder [k0] (.vptr (some (.vmap false []))) body fuel
        ⟨o.v, o.rest, o.fault⟩
      else if k0 = 108 then
        let o := listDecoder [k0] (.vptr (some (.vslice false []))) body fuel
        ⟨o.v, o.rest, o.fault⟩
      else if k0 = 99 then
        ⟨.invalid, body, some (.derr "custom type must be top-level")⟩
      else
        match dpeek body with
        | .error f => ⟨.invalid, body, some f⟩
        | .ok _ => ⟨.invalid, body, some (.derr "invalid utcode type")⟩) := by
  have hr : readUntil 58 ([k0] ++ 58 :: body) = ([k0], true, 58 :: body) :=
    readUntil_hit 58 [k0] body (by simp) (by simp [Ne.symm]; omega)
  simp only [List.singleton_append] at hr
  rw [decodeTypeAndCreate, hr]
  simp only [dread_one]

theorem Decode_ptr_some (t : List Nat) (x : RVal) :
    Decode (asciiBytes "ut:" ++ t) (RVal.vptr (some x)) =
      ⟨(decodeType t (RVal.vptr (some x)) (t.length + 4)).v,
        (decodeType t (RVal.vptr (some x)) (t.length + 4)).fault⟩ := by
  have hpre : readAndMatch3 (asciiBytes "ut:" ++ t) = true := by
    simp [readAndMatch3, asciiBytes]
  have hdrop : (asciiBytes "ut:" ++ t).drop 3 = t := by
    simp [asciiBytes]
  have hlen : (asciiBytes "ut:" ++ t).length + 1 = t.length + 4 := by
    simp [asciiBytes]
  rw [Decode, DecodeF, if_pos hpre, hlen, hdrop]
  rfl

theorem fmtInt_mem (n : Int) : ∀ c ∈ fmtInt n, c = 45 ∨ (48 ≤ c ∧ c ≤ 57) := by
  intro c hc
  rw [fmtInt] at hc
  by_cases hn : n < 0
  · rw [if_pos hn] at hc
    rcases List.mem_cons.mp hc with h | h
    · exact Or.inl h
    · exact Or.inr (natToDigits_mem _ c h)
  · rw [if_neg hn] at hc
    exact Or.inr (natToDigits_mem _ c hc)

theorem fmtInt_ne_nil (n : Int) : fmtInt n ≠ [] := by
  rw [fmtInt]
  by_cases hn : n < 0
  · rw [if_pos hn]; simp
  · rw [if_neg hn]; exact natToDigits_ne_nil _

theorem fmtFloat_mem (q : ℚ) : ∀ c ∈ fmtFloat q, c = 45 ∨ c = 46 ∨ (48 ≤ c ∧ c ≤ 57) := by
  intro c hc
  rw [fmtFloat] at hc
  have hsign : ∀ x ∈ (if q < 0 then ([45] : List Nat) else []), x = 45 := by
    intro x hx
    by_cases hq : q < 0
    · rw [if_pos hq] at hx; simpa using hx
    · rw [if_neg hq] at hx; simp at hx
  rcases hd : decExp q.den with _ | k
  · rw [hd] at hc
    simp only at hc
    rcases List.mem_append.mp hc with h | h
    · exact Or.inl (hsign c h)
    · exact Or.inr (Or.inr (natToDigits_mem _ c h))
  · rw [hd] at hc
    simp only at hc
    by_cases hk : k = 0
    · rw [if_pos hk] at hc
      rcases List.mem_append.mp hc with h | h
      · exact Or.inl (hsign c h)
      · exact Or.inr (Or.inr (natToDigits_mem _ c h))
    · rw [if_neg hk] at hc
      rcases List.mem_append.mp hc with h | h
      · rcases List.mem_append.mp h with h1 | h1
        · exact Or.inl (hsign c h1)
        · exact Or.inr (Or.inr (natToDigits_mem _ c h1))
      · rcases List.mem_cons.mp h with h1 | h1
        · exact Or.inr (Or.inl h1)
        · exact Or.inr (Or.inr (natDigitsPadded_mem _ _ c h1))

theorem fmtFloat_ne_nil (q : ℚ) : fmtFloat q ≠ [] := by
  rw [fmtFloat]
  rcases hd : decExp q.den with _ | k
  · simp only
    intro h
    rcases List.append_eq_nil.mp h with ⟨-, h2⟩
    exact natToDigits_ne_nil _ h2
  · simp only
    by_cases hk : k = 0
    · rw [if_pos hk]
      intro h
      rcases List.append_eq_nil.mp h with ⟨-, h2⟩
      exact natToDigits_ne_nil _ h2
    · rw [if_neg hk]
      intro h
      rcases List.append_eq_nil.mp h with ⟨-, h2⟩
      simp at h2

theorem goParseInt_natToDigits (m : Nat) (hm : m ≤ 2 ^ 63 - 1) :
    goParseInt (natToDigits m) = some (m : Int) := by
  obtain ⟨c, cs, hcons⟩ : ∃ c cs, natToDigits m = c :: cs := by
    cases h : natToDigits m with
    | nil => exact absurd h (natToDigits_ne_nil m)
    | cons a b => exact ⟨a, b, rfl⟩
  have hcd := natToDigits_mem m c (by rw [hcons]; simp)
  rw [hcons, goParseInt]
  rw [if_neg (by omega : ¬ c = 43), if_neg (by omega : ¬ c = 45), ← hcons,
    parseUint0_natToDigits]
  simp
  omega

theorem intDecoder_run (key : List Nat) (n m : Int) (r : List Nat)
    (hlo : -(2 ^ 63) ≤ n) (hhi : n ≤ 2 ^ 63 - 1) :
    intDecoder key (RVal.vptr (some (RVal.vint m))) (fmtInt n ++ 101 :: r) =
      ⟨RVal.vptr (some (RVal.vint n)), r, none⟩ := by
  have hne : fmtInt n ≠ [] := fmtInt_ne_nil n
  have hnm : (101 : Nat) ∉ fmtInt n := by
    intro h
    rcases fmtInt_mem n 101 h with h1 | h1 <;> omega
  rw [intDecoder, readUntil_hit 101 _ r hne hnm]
  simp only [goParseInt_fmtInt n hlo hhi, dread_one]

theorem floatDecoder_run (key : List Nat) (q : ℚ) (k : Nat) (q0 : ℚ) (r : List Nat)
    (hk : decExp q.den = some k) :
    floatDecoder key (RVal.vptr (some (RVal.vfloat q0))) (fmtFloat q ++ 122 :: r) =
      ⟨RVal.vptr (some (RVal.vfloat q)), r, none⟩ := by
  have hne : fmtFloat q ≠ [] := fmtFloat_ne_nil q
  have hnm : (122 : Nat) ∉ fmtFloat q := by
    intro h
    rcases fmtFloat_mem q 122 h with h1 | h1 | h1 <;> omega
  rw [floatDecoder, readUntil_hit 122 _ r hne hnm]
  simp only [goParseFloat_fmtFloat q k hk, dread_one]

theorem unicodeDecoder_run (s r v0 : List Nat) (hs : ∀ b ∈ s, b < 256)
    (hlen : (encB64 s).length ≤ 2 ^ 63 - 1) :
    unicodeDecoder (117 :: natToDigits (encB64 s).length)
        (RVal.vptr (some (RVal.vstr v0))) (encB64 s ++ r) =
      ⟨RVal.vptr (some (RVal.vstr s)), r, none⟩ := by
  have hneg : ¬ ((((encB64 s).length : Nat) : Int) < 0) := by omega
  have htn : ((((encB64 s).length : Nat) : Int)).toNat = (encB64 s).length := by omega
  rw [unicodeDecoder]
  simp only [List.drop_succ_cons, List.drop_zero, goParseInt_natToDigits _ hlen,
    if_neg hneg, htn, dread_exact, decB64_encB64 s hs]

theorem decodeType_key (k0 : Nat) (ktail body : List Nat) (v : RVal) (fuel : Nat)
    (hk : (58 : Nat) ∉ k0 :: ktail) :
    decodeType ((k0 :: ktail) ++ 58 :: body) v (fuel + 1) =
      (if k0 = 110 then nilDecoder (k0 :: ktail) v body
      else if k0 = 98 then boolDecoder (k0 :: ktail) v body
      else if k0 = 105 then intDecoder (k0 :: ktail) v body
      else if k0 = 102 then floatDecoder (k0 :: ktail) v body
      else if k0 = 115 then stringDecoder (k0 :: ktail) v body
      else if k0 = 117 then unicodeDecoder (k0 :: ktail) v body
      else if k0 = 100 then dictDecoder (k0 :: ktail) v body fuel
      else if k0 = 108 then listDecoder (k0 :: ktail) v body fuel
      else if k0 = 99 then customDecoder (k0 :: ktail) v body
      else
        match dpeek body with
        | .error f => ⟨v, body, some f⟩
        | .ok _ => ⟨v, body, some (.derr "invalid utcode type")⟩) := by
  have hr := readUntil_hit 58 (k0 :: ktail) body (by simp) hk
  simp only [List.cons_append] at hr
  rw [List.cons_append, decodeType, hr]
  simp only [dread_one]

/-- Claim C1 (round-trip identity for every supported scalar): encoding a
boolean, an int64-ranged signed integer, a non-integral float64 value
(modelled: a non-integral rational with finite decimal expansion), or a
byte string (UTF-8 text of any content, length within Go's int range) with
the encoder and decoding the produced bytes into a destination of the same
shape yields the original value, with no error. -/
theorem claim_C1_scalar_roundtrip (b : Bool) (n : Int) (q : ℚ) (s : List Nat) (k : Nat)
    (hlo : -(2 ^ 63) ≤ n) (hhi : n ≤ 2 ^ 63 - 1)
    (hq : decExp q.den = some k) (hqni : q.den ≠ 1)
    (hs : ∀ b ∈ s, b < 256) (hslen : s.length ≤ 2 ^ 61) :
    (∃ bs, Enc0.Encode (GoVal.vbool b) = EncResult.ok bs ∧
      Decode bs (RVal.vptr (some (RVal.vbool false))) =
        ⟨RVal.vptr (some (RVal.vbool b)), none⟩) ∧
    (∃ bs, Enc0.Encode (GoVal.vint n) = EncResult.ok bs ∧
      Decode bs (RVal.vptr (some (RVal.vint 0))) =
        ⟨RVal.vptr (some (RVal.vint n)), none⟩) ∧
    (∃ bs, Enc0.Encode (GoVal.vfloat q) = EncResult.ok bs ∧
      Decode bs (RVal.vptr (some (RVal.vfloat 0))) =
        ⟨RVal.vptr (some (RVal.vfloat q)), none⟩) ∧
    (∃ bs, Enc0.Encode (GoVal.vstr s) = EncResult.ok bs ∧
      Decode bs (RVal.vptr (some (RVal.vstr []))) =
        ⟨RVal.vptr (some (RVal.vstr s)), none⟩) := by
  refine ⟨?_, ?_, ?_, ?_⟩
  · cases b
    · exact ⟨asciiBytes "ut:b:0", by decide, rfl⟩
    · exact ⟨asciiBytes "ut:b:1", by decide, rfl⟩
  · refine ⟨asciiBytes "ut:" ++ (105 :: 58 :: (fmtInt n ++ 101 :: [])), ?_, ?_⟩
    · have hi : asciiBytes "i:" = [105, 58] := by decide
      simp [Enc0.Encode, Enc0.encodeType, encodeTypeW, runEncode, hi]
    · rw [Decode_ptr_some]
      obtain ⟨f, hf⟩ : ∃ f, (105 :: 58 :: (fmtInt n ++ 101 :: [])).length + 4 = f + 1 :=
        ⟨(105 :: 58 :: (fmtInt n ++ 101 :: [])).length + 3, by omega⟩
      rw [hf, decodeType_cons 105 _ _ f (by omega)]
      norm_num
      rw [intDecoder_run [105] n 0 [] hlo hhi]
      exact ⟨rfl, rfl⟩
  · refine ⟨asciiBytes "ut:" ++ (102 :: 58 :: (fmtFloat q ++ 122 :: [])), ?_, ?_⟩
    · have hfc : asciiBytes "f:" = [102, 58] := by decide
      simp [Enc0.Encode, Enc0.encodeType, encodeTypeW, runEncode, Enc0.floatEncoder,
        if_neg hqni, hfc]
    · rw [Decode_ptr_some]
      obtain ⟨f, hf⟩ : ∃ f, (102 :: 58 :: (fmtFloat q ++ 122 :: [])).length + 4 = f + 1 :=
        ⟨(102 :: 58 :: (fmtFloat q ++ 122 :: [])).length + 3, by omega⟩
      rw [hf, decodeType_cons 102 _ _ f (by omega)]
      norm_num
      rw [floatDecoder_run [102] q k 0 [] hq]
      exact ⟨rfl, rfl⟩
  · have hblen : (encB64 s).length ≤ 2 ^ 63 - 1 := by
      rw [encB64_length]
      omega
    refine ⟨asciiBytes "ut:" ++
      ((117 :: natToDigits (encB64 s).length) ++ 58 :: (encB64 s ++ [])), ?_, ?_⟩
    · have hu : (117 : Nat) :: natToDigits (encB64 s).length ++ 58 :: (encB64 s ++ []) =
          [117] ++ natToDigits (encB64 s).length ++ [58] ++ encB64 s := by
        simp
      simp [Enc0.Encode, Enc0.encodeType, encodeTypeW, runEncode, stringEncoderBytes, hu]
    · rw [Decode_ptr_some]
      obtain ⟨f, hf⟩ : ∃ f,
          ((117 :: natToDigits (encB64 s).length) ++ 58 :: (encB64 s ++ [])).length + 4 =
            f + 1 :=
        ⟨((117 :: natToDigits (encB64 s).length) ++ 58 :: (encB64 s ++ [])).length + 3,
          by omega⟩
      have hnk : (58 : Nat) ∉ 117 :: natToDigits (encB64 s).length := by
        intro h
        rcases List.mem_cons.mp h with h1 | h1
        · omega
        · have := natToDigits_mem _ 58 h1
          omega
      rw [hf, decodeType_key 117 _ _ _ f hnk]
      norm_num
      have hrun := unicodeDecoder_run s [] [] hs hblen
      rw [List.append_nil] at hrun
      rw [hrun]
      exact ⟨rfl, rfl⟩

/-- Witness for C1 at concrete inputs: `true`, `-616`, `3.14`
(`mkRat 157 50`), and the UTF-8 text `"héllo"` (a multi-byte character). -/
theorem claim_C1_scalar_roundtrip_witness :
    (∃ bs, Enc0.Encode (GoVal.vbool true) = EncResult.ok bs ∧
      Decode bs (RVal.vptr (some (RVal.vbool false))) =
        ⟨RVal.vptr (some (RVal.vbool true)), none⟩) ∧
    (∃ bs, Enc0.Encode (GoVal.vint (-616)) = EncResult.ok bs ∧
      Decode bs (RVal.vptr (some (RVal.vint 0))) =
        ⟨RVal.vptr (some (RVal.vint (-616))), none⟩) ∧
    (∃ bs, Enc0.Encode (GoVal.vfloat (mkRat 157 50)) = EncResult.ok bs ∧
      Decode bs (RVal.vptr (some (RVal.vfloat 0))) =
        ⟨RVal.vptr (some (RVal.vfloat (mkRat 157 50))), none⟩) ∧
    (∃ bs, Enc0.Encode (GoVal.vstr [104, 195, 169, 108, 108, 111]) = EncResult.ok bs ∧
      Decode bs (RVal.vptr (some (RVal.vstr []))) =
        ⟨RVal.vptr (some (RVal.vstr [104, 195, 169, 108, 108, 111])), none⟩) :=
  claim_C1_scalar_roundtrip true (-616) (mkRat 157 50) [104, 195, 169, 108, 108, 111] 2
    (by decide) (by decide) (by decide) (by decide) (by decide) (by decide)

/-- Claim C2, settled against the code: the `part_000` revision of
`boolEncoder` writes `b:1` for true and `b:0` for false as the claim states,
but the `part_001` revision writes the digit `0` on both branches, so its
encodings of `true` and `false` coincide — the defect §9 of the spec
describes. -/
theorem claim_C2_bool_encodings :
    Enc0.Encode (GoVal.vbool true) = EncResult.ok (asciiBytes "ut:b:1") ∧
    Enc0.Encode (GoVal.vbool false) = EncResult.ok (asciiBytes "ut:b:0") ∧
    Enc1.Encode (GoVal.vbool true) = EncResult.ok (asciiBytes "ut:b:0") ∧
    Enc1.Encode (GoVal.vbool false) = EncResult.ok (asciiBytes "ut:b:0") ∧
    Enc1.Encode (GoVal.vbool true) = Enc1.Encode (GoVal.vbool false) := by
  refine ⟨by decide, by decide, by decide, by decide, by decide⟩

/-- Claim C3, settled against the code: a buffer without the `ut:` prefix
yields a returned decode error with the destination untouched (first
conjunct, fully general); but an unterminated dictionary or list does not
return an error — the `peek` at end of input raises an index-out-of-range
runtime error, which the recover block re-panics, crashing the process
(second and third conjuncts). -/
theorem claim_C3_malformed (data : List Nat) (v : RVal)
    (hpre : readAndMatch3 data = false) :
    Decode data v = ⟨v, some (DFault.derr "invalid utcode")⟩ ∧
    (Decode (asciiBytes "ut:d:") (RVal.vmap false [])).fault =
      some (DFault.crash "runtime error: index out of range") ∧
    (Decode (asciiBytes "ut:l:") (RVal.vptr (some (RVal.vslice false [])))).fault =
      some (DFault.crash "runtime error: index out of range") := by
  refine ⟨?_, rfl, rfl⟩
  rw [Decode, DecodeF, hpre]
  rfl

/-- Witness for C3 at a concrete prefix-less buffer. -/
theorem claim_C3_malformed_witness :
    Decode (asciiBytes "xy:i:5e") (RVal.vptr (some (RVal.vint 7))) =
      ⟨RVal.vptr (some (RVal.vint 7)), some (DFault.derr "invalid utcode")⟩ ∧
    (Decode (asciiBytes "ut:d:") (RVal.vmap false [])).fault =
      some (DFault.crash "runtime error: index out of range") ∧
    (Decode (asciiBytes "ut:l:") (RVal.vptr (some (RVal.vslice false [])))).fault =
      some (DFault.crash "runtime error: index out of range") :=
  claim_C3_malformed (asciiBytes "xy:i:5e") (RVal.vptr (some (RVal.vint 7))) (by decide)

/-- Claim C4, settled against the code: nil pointers, nil slices and nil
byte-slices encode as exactly `n:e`, but `mapEncoder` misses the `return`
after its nil check, so a nil map encodes as `n:e` followed by an empty
dictionary `d:e` — in both encoder revisions. -/
theorem claim_C4_nil_encodings :
    Enc1.Encode (GoVal.vptr none) = EncResult.ok (asciiBytes "ut:n:e") ∧
    Enc1.Encode (GoVal.vslice true []) = EncResult.ok (asciiBytes "ut:n:e") ∧
    Enc1.Encode (GoVal.vbytes true []) = EncResult.ok (asciiBytes "ut:n:e") ∧
    Enc1.Encode (GoVal.vmap true []) = EncResult.ok (asciiBytes "ut:n:ed:e") ∧
    Enc0.Encode (GoVal.vmap true []) = EncResult.ok (asciiBytes "ut:n:ed:e") := by
  refine ⟨by decide, by decide, by decide, by decide, by decide⟩

/-- Claim C7, settled against the code: `mapEncoder` panics with a `string`
value on a non-string key, and the recover block in `Encoder.Encode`
re-panics string values instead of converting them to a returned error, so
encoding a map with an integer key crashes the process in both encoder
revisions. -/
theorem claim_C7_nonstring_key_crash :
    Enc1.Encode (GoVal.vmap false [(GoVal.vint 1, GoVal.vstr (asciiBytes "a"))]) =
      EncResult.crash "map encoding supports only string as key" ∧
    Enc0.Encode (GoVal.vmap false [(GoVal.vint 1, GoVal.vstr (asciiBytes "a"))]) =
      EncResult.crash "map encoding supports only string as key" := by
  refine ⟨by decide, by decide⟩

/-- Claim C6, settled against the code: the `part_000` encoder emits the
whole-valued float `5.0` with the Integer tag (`ut:i:5e`), but decoding that
Integer token into a float destination calls `reflect.Value.SetInt` on a
float64 cell, which panics with a `*reflect.ValueError` that the recover
block converts into the returned error — the decoder does not accept the
Integer form for float destinations.  The Float-tagged form of the same
value decodes fine. -/
theorem claim_C6_integer_tag_float_dest :
    Enc0.Encode (GoVal.vfloat 5) = EncResult.ok (asciiBytes "ut:i:5e") ∧
    (Decode (asciiBytes "ut:i:5e") (RVal.vptr (some (RVal.vfloat 0)))).fault =
      some (DFault.derr "reflect: call of reflect.Value.SetInt on wrong kind") ∧
    Decode (asciiBytes "ut:f:5z") (RVal.vptr (some (RVal.vfloat 0))) =
      ⟨RVal.vptr (some (RVal.vfloat 5)), none⟩ := by
  refine ⟨by decide, rfl, rfl⟩

/-- Claim C8, settled against the code: with a nil destination,
`reflect.ValueOf(nil)` is the zero `Value`, so `value.IsNil()` panics with
a `*reflect.ValueError` that the recover block converts into the returned
error — the buffer is never read and nothing is assigned; with a typed nil
pointer destination the create path runs to completion but `value.Set` on
the unaddressable `reflect.ValueOf` result is a `string` panic, re-panicked
by the recover block (process crash).  Either way, no dynamic tree is ever
assigned back. -/
theorem claim_C8_nil_destination :
    (Decode (asciiBytes "ut:i:5e") RVal.invalid).fault =
      some (DFault.derr "reflect: call of reflect.Value.IsNil on zero Value") ∧
    (Decode (asciiBytes "ut:i:5e") RVal.invalid).v = RVal.invalid ∧
    (Decode (asciiBytes "ut:i:5e") (RVal.vptr none)).fault =
      some (DFault.crash "reflect: reflect.Value.Set using unaddressable value") := by
  refine ⟨rfl, rfl, rfl⟩

/-- Claim C9, settled against the code: in bind mode `customDecoder` is an
empty stub, so decoding a Custom-tagged value consumes nothing, changes
nothing and returns success; only create mode fails deterministically
(`custom type must be top-level`). -/
theorem claim_C9_custom_silent_bind :
    Decode (asciiBytes "ut:c:x") (RVal.vptr (some (RVal.vbool false))) =
      ⟨RVal.vptr (some (RVal.vbool false)), none⟩ ∧
    (Decode (asciiBytes "ut:c:x") (RVal.vptr none)).fault =
      some (DFault.derr "custom type must be top-level") := by
  refine ⟨rfl, rfl⟩

/-- Claim C5, settled against the code.  First conjunct: a well-formed
dictionary decoded into a record destination never reaches the unknown-key
logic — `dictDecoder` recurses to the struct value and its first statement
`v.IsNil()` panics with a `*reflect.ValueError` on a struct, which the
recover block converts into the returned error, aborting before any pair is
read.  Second conjunct, evaluating the cited `fillStruct` directly: on a
dictionary holding the unknown key `q` and then the known pair
`name ↦ "test"`, the unknown key is consumed, its value is *not* skipped —
the next `dictKey` reads the value token `u8`, fails, and the loop breaks —
so the remaining pair is never decoded into its field and no error is
raised.  Third conjunct (control): without the unknown key, the same pair
does fill the field. -/
theorem claim_C5_unknown_key :
    (Decode (asciiBytes "ut:d:k1:qu8:dGVzdA==k4:nameu8:dGVzdA==e")
      (RVal.vptr (some (RVal.vstruct
        [SField.mk (asciiBytes "Name") [] true Ty.tstr (RVal.vstr [])])))).fault =
      some (DFault.derr "reflect: call of reflect.Value.IsNil on non-nilable Value") ∧
    fillStruct [SField.mk (asciiBytes "Name") [] true Ty.tstr (RVal.vstr [])]
      (asciiBytes "k1:qu8:dGVzdA==k4:nameu8:dGVzdA==e") 100 =
      ⟨[SField.mk (asciiBytes "Name") [] true Ty.tstr (RVal.vstr [])],
        asciiBytes ":dGVzdA==k4:nameu8:dGVzdA==e", none⟩ ∧
    fillStruct [SField.mk (asciiBytes "Name") [] true Ty.tstr (RVal.vstr [])]
      (asciiBytes "k4:nameu8:dGVzdA==e") 100 =
      ⟨[SField.mk (asciiBytes "Name") [] true Ty.tstr (RVal.vstr (asciiBytes "test"))],
        asciiBytes "e", none⟩ := by
  refine ⟨rfl, rfl, rfl⟩

theorem decodeTypeAndCreate_key (k0 : Nat) (ktail body : List Nat) (fuel : Nat)
    (hk : (58 : Nat) ∉ k0 :: ktail) :
    decodeTypeAndCreate ((k0 :: ktail) ++ 58 :: body) (fuel + 1) =
      (if k0 = 110 then
        let o := nilDecoder (k0 :: ktail) .invalid body
        ⟨.invalid, o.rest, o.fault⟩
      else if k0 = 98 then
        let o := boolDecoder (k0 :: ktail) (.vptr (some (.vbool false))) body
        ⟨o.v, o.rest, o.fault⟩
      else if k0 = 105 then
        let o := intDecoder (k0 :: ktail) (.vptr (some (.vint 0))) body
        ⟨o.v, o.rest, o.fault⟩
      else if k0 = 102 then
        let o := floatDecoder (k0 :: ktail) (.vptr (some (.vfloat 0))) body
        ⟨o.v, o.rest, o.fault⟩
      else if k0 = 115 then
        let o := stringDecoder (k0 :: ktail) (.vptr (some (.vstr []))) body
        ⟨o.v, o.rest, o.fault⟩
      else if k0 = 117 then
        let o := unicodeDecoder (k0 :: ktail) (.vptr (some (.vstr []))) body
        ⟨o.v, o.rest, o.fault⟩
      else if k0 = 100 then
        let o := dictDecoder (k0 :: ktail) (.vptr (some (.vmap false []))) body fuel
        ⟨o.v, o.rest, o.fault⟩
      else if k0 = 108 then
        let o := listDecoder (k0 :: ktail) (.vptr (some (.vslice false []))) body fuel
        ⟨o.v, o.rest, o.fault⟩
      else if k0 = 99 then
        ⟨.invalid, body, some (.derr "custom type must be top-level")⟩
      else
        match dpeek body with
        | .error f => ⟨.invalid, body, some f⟩
        | .ok _ => ⟨.invalid, body, some (.derr "invalid utcode type")⟩) := by
  have hr := readUntil_hit 58 (k0 :: ktail) body (by simp) hk
  simp only [List.cons_append] at hr
  rw [List.cons_append, decodeTypeAndCreate, hr]
  simp only [dread_one]

theorem goParseInt_natToDigits_inv (m : Nat) (x : Int)
    (h : goParseInt (natToDigits m) = some x) : x = (m : Int) ∧ m ≤ 2 ^ 63 - 1 := by
  by_cases hm : m ≤ 2 ^ 63 - 1
  · rw [goParseInt_natToDigits m hm] at h
    exact ⟨by injection h with h1; exact h1.symm, hm⟩
  · exfalso
    obtain ⟨c, cs, hcons⟩ : ∃ c cs, natToDigits m = c :: cs := by
      cases hd : natToDigits m with
      | nil => exact absurd hd (natToDigits_ne_nil m)
      | cons a b => exact ⟨a, b, rfl⟩
    have hcd := natToDigits_mem m c (by rw [hcons]; simp)
    rw [hcons, goParseInt, if_neg (by omega : ¬ c = 43), if_neg (by omega : ¬ c = 45),
      ← hcons, parseUint0_natToDigits] at h
    simp only [Option.some_bind] at h
    rw [if_neg hm] at h
    exact Option.noConfusion h

theorem spin_ne_none : some DFault.spin ≠ (none : Option DFault) := by
  intro h
  exact Option.noConfusion h

theorem createLoc_wnil : CreateLoc .wnil := by
  intro fuel t₁ t₂
  cases fuel with
  | zero =>
    exact ⟨rfl, rfl, ser .wnil, rfl, rfl, fun h => absurd h spin_ne_none⟩
  | succ f =>
    show RelC t₁ t₂ (decodeTypeAndCreate (110 :: 58 :: (101 :: t₁)) (f + 1))
      (decodeTypeAndCreate (110 :: 58 :: (101 :: t₂)) (f + 1))
    rw [decodeTypeAndCreate_cons 110 (101 :: t₁) f (by omega),
      decodeTypeAndCreate_cons 110 (101 :: t₂) f (by omega)]
    norm_num
    simp only [nilDecoder, dread_one]
    exact ⟨rfl, rfl, [], rfl, rfl, fun _ => rfl⟩

theorem createLoc_wbool (b : Bool) : CreateLoc (.wbool b) := by
  intro fuel t₁ t₂
  cases fuel with
  | zero =>
    exact ⟨rfl, rfl, ser (.wbool b), rfl, rfl, fun h => absurd h spin_ne_none⟩
  | succ f =>
    show RelC t₁ t₂
      (decodeTypeAndCreate (98 :: 58 :: ((if b then 49 else 48) :: t₁)) (f + 1))
      (decodeTypeAndCreate (98 :: 58 :: ((if b then 49 else 48) :: t₂)) (f + 1))
    rw [decodeTypeAndCreate_cons 98 _ f (by omega),
      decodeTypeAndCreate_cons 98 _ f (by omega)]
    norm_num
    simp only [boolDecoder, dpeek, dread_one]
    exact ⟨rfl, rfl, [], rfl, rfl, fun _ => rfl⟩

theorem createLoc_wint (n : Int) : CreateLoc (.wint n) := by
  intro fuel t₁ t₂
  cases fuel with
  | zero =>
    exact ⟨rfl, rfl, ser (.wint n), rfl, rfl, fun h => absurd h spin_ne_none⟩
  | succ f =>
    have hne : fmtInt n ≠ [] := fmtInt_ne_nil n
    have hnm : (101 : Nat) ∉ fmtInt n := by
      intro h
      rcases fmtInt_mem n 101 h with h1 | h1 <;> omega
    show RelC t₁ t₂
      (decodeTypeAndCreate (105 :: 58 :: ((fmtInt n ++ 101 :: []) ++ t₁)) (f + 1))
      (decodeTypeAndCreate (105 :: 58 :: ((fmtInt n ++ 101 :: []) ++ t₂)) (f + 1))
    rw [decodeTypeAndCreate_cons 105 _ f (by omega),
      decodeTypeAndCreate_cons 105 _ f (by omega)]
    norm_num
    simp only [intDecoder, readUntil_hit 101 (fmtInt n) t₁ hne hnm,
      readUntil_hit 101 (fmtInt n) t₂ hne hnm]
    cases goParseInt (fmtInt n) with
    | none =>
      exact ⟨rfl, rfl, [101], rfl, rfl, fun h => absurd h (by simp)⟩
    | some x =>
      simp only [dread_one]
      exact ⟨rfl, rfl, [], rfl, rfl, fun _ => rfl⟩

theorem createLoc_wfloat (q : ℚ) : CreateLoc (.wfloat q) := by
  intro fuel t₁ t₂
  cases fuel with
  | zero =>
    exact ⟨rfl, rfl, ser (.wfloat q), rfl, rfl, fun h => absurd h spin_ne_none⟩
  | succ f =>
    have hne : fmtFloat q ≠ [] := fmtFloat_ne_nil q
    have hnm : (122 : Nat) ∉ fmtFloat q := by
      intro h
      rcases fmtFloat_mem q 122 h with h1 | h1 | h1 <;> omega
    show RelC t₁ t₂
      (decodeTypeAndCreate (102 :: 58 :: ((fmtFloat q ++ 122 :: []) ++ t₁)) (f + 1))
      (decodeTypeAndCreate (102 :: 58 :: ((fmtFloat q ++ 122 :: []) ++ t₂)) (f + 1))
    rw [decodeTypeAndCreate_cons 102 _ f (by omega),
      decodeTypeAndCreate_cons 102 _ f (by omega)]
    norm_num
    simp only [floatDecoder, readUntil_hit 122 (fmtFloat q) t₁ hne hnm,
      readUntil_hit 122 (fmtFloat q) t₂ hne hnm]
    cases goParseFloat (fmtFloat q) with
    | none =>
      exact ⟨rfl, rfl, [122], rfl, rfl, fun h => absurd h (by simp)⟩
    | some x =>
      simp only [dread_one]
      exact ⟨rfl, rfl, [], rfl, rfl, fun _ => rfl⟩

theorem createLoc_wstr (raw : List Nat) : CreateLoc (.wstr raw) := by
  intro fuel t₁ t₂
  cases fuel with
  | zero =>
    exact ⟨rfl, rfl, ser (.wstr raw), rfl, rfl, fun h => absurd h spin_ne_none⟩
  | succ f =>
    have hk : (58 : Nat) ∉ 115 :: natToDigits raw.length := by
      intro h
      rcases List.mem_cons.mp h with h1 | h1
      · omega
      · have := natToDigits_mem _ 58 h1
        omega
    have hsh : ∀ t : List Nat, ser (.wstr raw) ++ t =
        (115 :: natToDigits raw.length) ++ 58 :: (raw ++ t) := by
      intro t
      simp [ser]
    show RelC t₁ t₂ (decodeTypeAndCreate (ser (.wstr raw) ++ t₁) (f + 1))
      (decodeTypeAndCreate (ser (.wstr raw) ++ t₂) (f + 1))
    rw [hsh t₁, hsh t₂, decodeTypeAndCreate_key 115 _ _ f hk,
      decodeTypeAndCreate_key 115 _ _ f hk]
    norm_num
    simp only [stringDecoder, List.drop_succ_cons, List.drop_zero]
    cases hp : goParseInt (natToDigits raw.length) with
    | none =>
      exact ⟨rfl, rfl, raw, rfl, rfl, fun h => absurd h (by simp)⟩
    | some x =>
      obtain ⟨hx, hrange⟩ := goParseInt_natToDigits_inv _ _ hp
      have hneg : ¬ x < 0 := by omega
      have htn : x.toNat = raw.length := by omega
      simp only [if_neg hneg, htn, dread_exact]
      exact ⟨rfl, rfl, [], rfl, rfl, fun _ => rfl⟩

theorem createLoc_wu (payload : List Nat) : CreateLoc (.wu payload) := by
  intro fuel t₁ t₂
  cases fuel with
  | zero =>
    exact ⟨rfl, rfl, ser (.wu payload), rfl, rfl, fun h => absurd h spin_ne_none⟩
  | succ f =>
    have hk : (58 : Nat) ∉ 117 :: natToDigits payload.length := by
      intro h
      rcases List.mem_cons.mp h with h1 | h1
      · omega
      · have := natToDigits_mem _ 58 h1
        omega
    have hsh : ∀ t : List Nat, ser (.wu payload) ++ t =
        (117 :: natToDigits payload.length) ++ 58 :: (payload ++ t) := by
      intro t
      simp [ser]
    show RelC t₁ t₂ (decodeTypeAndCreate (ser (.wu payload) ++ t₁) (f + 1))
      (decodeTypeAndCreate (ser (.wu payload) ++ t₂) (f + 1))
    rw [hsh t₁, hsh t₂, decodeTypeAndCreate_key 117 _ _ f hk,
      decodeTypeAndCreate_key 117 _ _ f hk]
    norm_num
    simp only [unicodeDecoder, List.drop_succ_cons, List.drop_zero]
    cases hp : goParseInt (natToDigits payload.length) with
    | none =>
      exact ⟨rfl, rfl, payload, rfl, rfl, fun h => absurd h (by simp)⟩
    | some x =>
      obtain ⟨hx, hrange⟩ := goParseInt_natToDigits_inv _ _ hp
      have hneg : ¬ x < 0 := by omega
      have htn : x.toNat = payload.length := by omega
      simp only [if_neg hneg, htn, dread_exact]
      cases decB64 payload with
      | none => exact ⟨rfl, rfl, [], rfl, rfl, fun h => absurd h (by simp)⟩
      | some bytes => exact ⟨rfl, rfl, [], rfl, rfl, fun _ => rfl⟩

theorem dictKey_run (k body : List Nat) :
    dictKey (107 :: (natToDigits k.length ++ 58 :: (k ++ body))) =
      (match goParseInt (natToDigits k.length) with
      | none => ([], false, k ++ body, some (.derr "strconv.ParseInt: parse error"))
      | some _ => (k, true, body, none)) := by
  have hnm : (58 : Nat) ∉ 107 :: natToDigits k.length := by
    intro h
    rcases List.mem_cons.mp h with h1 | h1
    · omega
    · have := natToDigits_mem _ 58 h1
      omega
  have hr := readUntil_hit 58 (107 :: natToDigits k.length) (k ++ body) (by simp) hnm
  simp only [List.cons_append] at hr
  rw [dictKey, hr]
  cases hp : goParseInt (natToDigits k.length) with
  | none => simp [dread_one, hp]
  | some x =>
    obtain ⟨hx, hrange⟩ := goParseInt_natToDigits_inv _ _ hp
    have hneg : ¬ x < 0 := by omega
    have htn : x.toNat = k.length := by omega
    simp [dread_one, hp, if_neg hneg, htn, dread_exact]

theorem pairsLoc_pnil : PairsLoc .pnil := by
  intro fuel entries z₁ z₂
  cases fuel with
  | zero => exact ⟨rfl, rfl, [], rfl, rfl, fun h => absurd h spin_ne_none⟩
  | succ f =>
    show RelM (101 :: z₁) (101 :: z₂)
      (fillMap entries (serPairs .pnil ++ 101 :: z₁) (f + 1))
      (fillMap entries (serPairs .pnil ++ 101 :: z₂) (f + 1))
    simp only [serPairs, List.nil_append]
    rw [fillMap, fillMap]
    simp only [dpeek]
    norm_num
    exact ⟨rfl, rfl, [], rfl, rfl, fun _ => rfl⟩

theorem pairsLoc_pcons (k : List Nat) (v : WVal) (r : WPairs)
    (hv : CreateLoc v) (hr : PairsLoc r) : PairsLoc (.pcons k v r) := by
  intro fuel entries z₁ z₂
  cases fuel with
  | zero => exact ⟨rfl, rfl, serPairs (.pcons k v r), rfl, rfl, fun h => absurd h spin_ne_none⟩
  | succ f =>
    have hshape : ∀ z : List Nat, serPairs (.pcons k v r) ++ 101 :: z =
        107 :: (natToDigits k.length ++ 58 :: (k ++ (ser v ++ (serPairs r ++ 101 :: z)))) := by
      intro z
      simp [serPairs]
    show RelM (101 :: z₁) (101 :: z₂)
      (fillMap entries (serPairs (.pcons k v r) ++ 101 :: z₁) (f + 1))
      (fillMap entries (serPairs (.pcons k v r) ++ 101 :: z₂) (f + 1))
    rw [hshape z₁, hshape z₂, fillMap, fillMap]
    have hd1 := dictKey_run k (ser v ++ (serPairs r ++ 101 :: z₁))
    have hd2 := dictKey_run k (ser v ++ (serPairs r ++ 101 :: z₂))
    have h107 : ¬ (107 : Nat) = 101 := by omega
    cases hp : goParseInt (natToDigits k.length) with
    | none =>
      simp only [hp] at hd1 hd2
      simp only [dpeek, if_neg h107, hd1, hd2]
      refine ⟨rfl, rfl, k ++ (ser v ++ serPairs r), by simp, by simp,
        fun h => absurd h (by simp)⟩
    | some x =>
      simp only [hp] at hd1 hd2
      simp only [dpeek, if_neg h107, hd1, hd2]
      obtain ⟨hval, hfault, u', hre1, hre2, hex⟩ :=
        hv f (serPairs r ++ 101 :: z₁) (serPairs r ++ 101 :: z₂)
      rcases hco1 : decodeTypeAndCreate (ser v ++ (serPairs r ++ 101 :: z₁)) f with
        ⟨val₁, rest₁, fault₁⟩
      rcases hco2 : decodeTypeAndCreate (ser v ++ (serPairs r ++ 101 :: z₂)) f with
        ⟨val₂, rest₂, fault₂⟩
      simp only [hco1, hco2] at hval hfault hre1 hre2 hex ⊢
      subst hval
      subst hfault
      cases hf1 : fault₁ with
      | some fl =>
        subst hf1
        refine ⟨rfl, rfl, u' ++ serPairs r, ?_, ?_, fun h => absurd h (by simp)⟩
        · rw [hre1]
          simp
        · rw [hre2]
          simp
      | none =>
        subst hf1
        have hu : u' = [] := hex rfl
        subst hu
        simp only [List.nil_append] at hre1 hre2
        subst hre1
        subst hre2
        cases val₁ with
        | invalid => exact hr f (mapSet entries k none) z₁ z₂
        | vptr inner =>
          cases inner with
          | some y => exact hr f (mapSet entries k (some y)) z₁ z₂
          | none =>
            exact ⟨rfl, rfl, serPairs r, rfl, rfl, fun h => absurd h (by simp)⟩
        | vbool b => exact ⟨rfl, rfl, serPairs r, rfl, rfl, fun h => absurd h (by simp)⟩
        | vint n => exact ⟨rfl, rfl, serPairs r, rfl, rfl, fun h => absurd h (by simp)⟩
        | vfloat q => exact ⟨rfl, rfl, serPairs r, rfl, rfl, fun h => absurd h (by simp)⟩
        | vstr s => exact ⟨rfl, rfl, serPairs r, rfl, rfl, fun h => absurd h (by simp)⟩
        | vmap b en => exact ⟨rfl, rfl, serPairs r, rfl, rfl, fun h => absurd h (by simp)⟩
        | vslice b es => exact ⟨rfl, rfl, serPairs r, rfl, rfl, fun h => absurd h (by simp)⟩
        | vstruct fs => exact ⟨rfl, rfl, serPairs r, rfl, rfl, fun h => absurd h (by simp)⟩

theorem ser_head (v : WVal) : ∃ c cs, ser v = c :: cs ∧ ¬ c = 101 := by
  cases v with
  | wnil => exact ⟨110, [58, 101], by simp [ser], by omega⟩
  | wbool b => exact ⟨98, [58, if b then 49 else 48], by simp [ser], by omega⟩
  | wint n => exact ⟨105, 58 :: (fmtInt n ++ 101 :: []), by simp [ser], by omega⟩
  | wfloat q => exact ⟨102, 58 :: (fmtFloat q ++ 122 :: []), by simp [ser], by omega⟩
  | wstr raw => exact ⟨115, natToDigits raw.length ++ 58 :: raw, by simp [ser], by omega⟩
  | wu payload => exact ⟨117, natToDigits payload.length ++ 58 :: payload, by simp [ser], by omega⟩
  | wdict ps => exact ⟨100, 58 :: (serPairs ps ++ 101 :: []), by simp [ser], by omega⟩
  | wlist es => exact ⟨108, 58 :: (serList es ++ 101 :: []), by simp [ser], by omega⟩

theorem listLoc_lnil : ListLoc .lnil := by
  intro fuel i length hle sn acc z₁ z₂
  cases fuel with
  | zero => exact ⟨rfl, rfl, serList .lnil, rfl, rfl, fun h => absurd h spin_ne_none⟩
  | succ f =>
    show RelS (101 :: z₁) (101 :: z₂)
      (fillSliceFrom i length (.vptr (some (.vslice sn acc))) (serList .lnil ++ 101 :: z₁) (f + 1))
      (fillSliceFrom i length (.vptr (some (.vslice sn acc))) (serList .lnil ++ 101 :: z₂) (f + 1))
    simp only [serList, List.nil_append]
    rw [fillSliceFrom, fillSliceFrom]
    simp only [dpeek]
    norm_num
    exact ⟨rfl, rfl, [], rfl, rfl, fun _ => rfl⟩

theorem listLoc_lcons (v : WVal) (r : WList) (hv : CreateLoc v) (hr : ListLoc r) :
    ListLoc (.lcons v r) := by
  intro fuel i length hle sn acc z₁ z₂
  cases fuel with
  | zero => exact ⟨rfl, rfl, serList (.lcons v r), rfl, rfl, fun h => absurd h spin_ne_none⟩
  | succ f =>
    obtain ⟨c, cs, hc, hcne⟩ := ser_head v
    have hshape : ∀ z : List Nat, serList (.lcons v r) ++ 101 :: z =
        c :: (cs ++ (serList r ++ 101 :: z)) := by
      intro z
      simp [serList, hc]
    have hige : i ≥ length := hle
    show RelS (101 :: z₁) (101 :: z₂)
      (fillSliceFrom i length (.vptr (some (.vslice sn acc)))
        (serList (.lcons v r) ++ 101 :: z₁) (f + 1))
      (fillSliceFrom i length (.vptr (some (.vslice sn acc)))
        (serList (.lcons v r) ++ 101 :: z₂) (f + 1))
    rw [hshape z₁, hshape z₂, fillSliceFrom, fillSliceFrom]
    simp only [dpeek, if_neg hcne, if_pos hige]
    have hco := hv f (serList r ++ 101 :: z₁) (serList r ++ 101 :: z₂)
    simp only [hc, List.cons_append] at hco
    obtain ⟨hval, hfault, u', hre1, hre2, hex⟩ := hco
    rcases hco1 : decodeTypeAndCreate (c :: (cs ++ (serList r ++ 101 :: z₁))) f with
      ⟨val₁, rest₁, fault₁⟩
    rcases hco2 : decodeTypeAndCreate (c :: (cs ++ (serList r ++ 101 :: z₂))) f with
      ⟨val₂, rest₂, fault₂⟩
    simp only [hco1, hco2] at hval hfault hre1 hre2 hex ⊢
    subst hval
    subst hfault
    cases hf1 : fault₁ with
    | some fl =>
      subst hf1
      refine ⟨rfl, rfl, u' ++ serList r, ?_, ?_, fun h => absurd h (by simp)⟩
      · rw [hre1]
        simp
      · rw [hre2]
        simp
    | none =>
      subst hf1
      have hu : u' = [] := hex rfl
      subst hu
      simp only [List.nil_append] at hre1 hre2
      subst hre1
      subst hre2
      cases val₁ with
      | invalid => exact ⟨rfl, rfl, serList r, rfl, rfl, fun h => absurd h (by simp)⟩
      | vptr inner =>
        cases inner with
        | some e => exact hr f (i + 1) length (by omega) sn (acc ++ [e]) z₁ z₂
        | none => exact ⟨rfl, rfl, serList r, rfl, rfl, fun h => absurd h (by simp)⟩
      | vbool b => exact ⟨rfl, rfl, serList r, rfl, rfl, fun h => absurd h (by simp)⟩
      | vint n => exact ⟨rfl, rfl, serList r, rfl, rfl, fun h => absurd h (by simp)⟩
      | vfloat q => exact ⟨rfl, rfl, serList r, rfl, rfl, fun h => absurd h (by simp)⟩
      | vstr s => exact ⟨rfl, rfl, serList r, rfl, rfl, fun h => absurd h (by simp)⟩
      | vmap b en => exact ⟨rfl, rfl, serList r, rfl, rfl, fun h => absurd h (by simp)⟩
      | vslice b es => exact ⟨rfl, rfl, serList r, rfl, rfl, fun h => absurd h (by simp)⟩
      | vstruct fs => exact ⟨rfl, rfl, serList r, rfl, rfl, fun h => absurd h (by simp)⟩

theorem dictDecoder_create_run (key rest : List Nat) (g : Nat) :
    dictDecoder key (.vptr (some (.vmap false []))) rest (g + 1) =
      (let o := dictDecoder key (.vmap false []) rest g
       ⟨.vptr (some o.v), o.rest, o.fault⟩) := by
  rfl

theorem dictDecoder_map_run (key rest : List Nat) (g : Nat) :
    dictDecoder key (.vmap false []) rest (g + 1) =
      (let o := fillMap [] rest g
       match o.fault with
       | some f => ⟨.vmap false o.entries, o.rest, some f⟩
       | none =>
         match dread 1 o.rest with
         | .error f2 => ⟨.vmap false o.entries, o.rest, some f2⟩
         | .ok (_, r2) => ⟨.vmap false o.entries, r2, none⟩) := by
  rfl

theorem listDecoder_create_run (key rest : List Nat) (g : Nat) :
    listDecoder key (.vptr (some (.vslice false []))) rest (g + 1) =
      (let o := fillSlice (.vptr (some (.vslice false []))) rest g
       match o.fault with
       | some f => ⟨o.v, o.rest, some f⟩
       | none =>
         match dread 1 o.rest with
         | .error f2 => ⟨o.v, o.rest, some f2⟩
         | .ok (_, r2) => ⟨o.v, r2, none⟩) := by
  rfl

theorem fillSlice_create_run (rest : List Nat) (g : Nat) :
    fillSlice (.vptr (some (.vslice false []))) rest (g + 1) =
      fillSliceFrom 0 0 (.vptr (some (.vslice false []))) rest g := by
  rfl

theorem createLoc_wdict (ps : WPairs) (hps : PairsLoc ps) : CreateLoc (.wdict ps) := by
  intro fuel t₁ t₂
  cases fuel with
  | zero => exact ⟨rfl, rfl, ser (.wdict ps), rfl, rfl, fun h => absurd h spin_ne_none⟩
  | succ f =>
    have hshape : ∀ t : List Nat, ser (.wdict ps) ++ t =
        100 :: 58 :: (serPairs ps ++ 101 :: t) := by
      intro t
      simp [ser]
    show RelC t₁ t₂ (decodeTypeAndCreate (ser (.wdict ps) ++ t₁) (f + 1))
      (decodeTypeAndCreate (ser (.wdict ps) ++ t₂) (f + 1))
    rw [hshape t₁, hshape t₂, decodeTypeAndCreate_cons 100 _ f (by omega),
      decodeTypeAndCreate_cons 100 _ f (by omega)]
    norm_num
    cases f with
    | zero =>
      exact ⟨rfl, rfl, serPairs ps ++ [101], by simp [dictDecoder],
        by simp [dictDecoder], fun h => absurd h spin_ne_none⟩
    | succ g =>
      rw [dictDecoder_create_run, dictDecoder_create_run]
      cases g with
      | zero =>
        exact ⟨rfl, rfl, serPairs ps ++ [101], by simp [dictDecoder],
          by simp [dictDecoder], fun h => absurd h spin_ne_none⟩
      | succ m =>
        rw [dictDecoder_map_run, dictDecoder_map_run]
        have hm := hps m [] t₁ t₂
        rcases hm1 : fillMap [] (serPairs ps ++ 101 :: t₁) m with ⟨en₁, re₁, fa₁⟩
        rcases hm2 : fillMap [] (serPairs ps ++ 101 :: t₂) m with ⟨en₂, re₂, fa₂⟩
        obtain ⟨hen, hfa, u', hre1, hre2, hex⟩ := hm
        simp only [hm1, hm2] at hen hfa hre1 hre2 hex ⊢
        subst hen
        subst hfa
        cases hf : fa₁ with
        | some fl =>
          subst hf
          refine ⟨rfl, rfl, u' ++ [101], ?_, ?_, fun h2 => absurd h2 (by simp)⟩
          · rw [hre1]
            simp
          · rw [hre2]
            simp
        | none =>
          subst hf
          have hu : u' = [] := hex rfl
          subst hu
          simp only [List.nil_append] at hre1 hre2
          subst hre1
          subst hre2
          simp only [dread_one]
          exact ⟨rfl, rfl, [], rfl, rfl, fun _ => rfl⟩

theorem createLoc_wlist (es : WList) (hes : ListLoc es) : CreateLoc (.wlist es) := by
  intro fuel t₁ t₂
  cases fuel with
  | zero => exact ⟨rfl, rfl, ser (.wlist es), rfl, rfl, fun h => absurd h spin_ne_none⟩
  | succ f =>
    have hshape : ∀ t : List Nat, ser (.wlist es) ++ t =
        108 :: 58 :: (serList es ++ 101 :: t) := by
      intro t
      simp [ser]
    show RelC t₁ t₂ (decodeTypeAndCreate (ser (.wlist es) ++ t₁) (f + 1))
      (decodeTypeAndCreate (ser (.wlist es) ++ t₂) (f + 1))
    rw [hshape t₁, hshape t₂, decodeTypeAndCreate_cons 108 _ f (by omega),
      decodeTypeAndCreate_cons 108 _ f (by omega)]
    norm_num
    cases f with
    | zero =>
      exact ⟨rfl, rfl, serList es ++ [101], by simp [listDecoder],
        by simp [listDecoder], fun h => absurd h spin_ne_none⟩
    | succ g =>
      rw [listDecoder_create_run, listDecoder_create_run]
      cases g with
      | zero =>
        exact ⟨rfl, rfl, serList es ++ [101], by simp [fillSlice],
          by simp [fillSlice], fun h => absurd h spin_ne_none⟩
      | succ m =>
        rw [fillSlice_create_run, fillSlice_create_run]
        have hs := hes m 0 0 (Nat.le_refl 0) false [] t₁ t₂
        rcases hs1 : fillSliceFrom 0 0 (.vptr (some (.vslice false [])))
          (serList es ++ 101 :: t₁) m with ⟨w₁, re₁, fa₁⟩
        rcases hs2 : fillSliceFrom 0 0 (.vptr (some (.vslice false [])))
          (serList es ++ 101 :: t₂) m with ⟨w₂, re₂, fa₂⟩
        obtain ⟨hwv, hfa, u', hre1, hre2, hex⟩ := hs
        simp only [hs1, hs2] at hwv hfa hre1 hre2 hex ⊢
        subst hwv
        subst hfa
        cases hf : fa₁ with
        | some fl =>
          subst hf
          refine ⟨rfl, rfl, u' ++ [101], ?_, ?_, fun h2 => absurd h2 (by simp)⟩
          · rw [hre1]
            simp
          · rw [hre2]
            simp
        | none =>
          subst hf
          have hu : u' = [] := hex rfl
          subst hu
          simp only [List.nil_append] at hre1 hre2
          subst hre1
          subst hre2
          simp only [dread_one]
          exact ⟨rfl, rfl, [], rfl, rfl, fun _ => rfl⟩

theorem createLoc_rank : ∀ N : Nat,
    (∀ w : WVal, sizeOf w ≤ N → CreateLoc w) ∧
    (∀ ps : WPairs, sizeOf ps ≤ N → PairsLoc ps) ∧
    (∀ es : WList, sizeOf es ≤ N → ListLoc es) := by
  intro N
  induction N with
  | zero =>
    refine ⟨?_, ?_, ?_⟩
    · intro w hw
      exfalso
      cases w <;> simp at hw
    · intro ps hps
      exfalso
      cases ps <;> simp at hps
    · intro es hes
      exfalso
      cases es <;> simp at hes
  | succ n ih =>
    obtain ⟨ihW, ihP, ihL⟩ := ih
    refine ⟨?_, ?_, ?_⟩
    · intro w hw
      cases w with
      | wnil => exact createLoc_wnil
      | wbool b => exact createLoc_wbool b
      | wint m => exact createLoc_wint m
      | wfloat q => exact createLoc_wfloat q
      | wstr raw => exact createLoc_wstr raw
      | wu payload => exact createLoc_wu payload
      | wdict ps =>
        refine createLoc_wdict ps (ihP ps ?_)
        simp at hw
        omega
      | wlist es =>
        refine createLoc_wlist es (ihL es ?_)
        simp at hw
        omega
    · intro ps hps
      cases ps with
      | pnil => exact pairsLoc_pnil
      | pcons k v r =>
        simp at hps
        exact pairsLoc_pcons k v r (ihW v (by omega)) (ihP r (by omega))
    · intro es hes
      cases es with
      | lnil => exact listLoc_lnil
      | lcons v r =>
        simp at hes
        exact listLoc_lcons v r (ihW v (by omega)) (ihL r (by omega))

theorem createLoc_all (w : WVal) : CreateLoc w :=
  (createLoc_rank (sizeOf w)).1 w (Nat.le_refl _)

/-- Claim C10, amended and proved: in create mode — `value.IsNil()` true,
the mode in which the decoder builds the value tree itself, so every
intermediate destination is internally constructed — `Decode` never
examines bytes past the first complete well-formed wire value: for every
well-formed value `w`, destination `v` with `isNilRes v = .ok true`, any
fuel and any trailing bytes `t`, decoding `ut:` ++ `ser w` ++ `t` gives
exactly the same outcome as decoding `ut:` ++ `ser w`.  The original
claim's further assertion that the decode *succeeds* is refuted by the
counterexample theorem. -/
theorem claim_C10_trailing_bytes_ignored (w : WVal) (t : List Nat) (v : RVal) (fuel : Nat)
    (hv : isNilRes v = .ok true) :
    DecodeF (asciiBytes "ut:" ++ (ser w ++ t)) v fuel =
      DecodeF (asciiBytes "ut:" ++ ser w) v fuel := by
  obtain ⟨-, hfault, -⟩ := createLoc_all w fuel t []
  have hpre1 : readAndMatch3 (asciiBytes "ut:" ++ (ser w ++ t)) = true := by
    simp [readAndMatch3, asciiBytes]
  have hpre2 : readAndMatch3 (asciiBytes "ut:" ++ ser w) = true := by
    simp [readAndMatch3, asciiBytes]
  have hdrop1 : (asciiBytes "ut:" ++ (ser w ++ t)).drop 3 = ser w ++ t := by
    simp [asciiBytes]
  have hdrop2 : (asciiBytes "ut:" ++ ser w).drop 3 = ser w := by
    simp [asciiBytes]
  rw [List.append_nil] at hfault
  rw [DecodeF, DecodeF, if_pos hpre1, if_pos hpre2]
  simp only [hdrop1, hdrop2, hv, hfault]

/-- Claim C10, witness: a concrete create-mode run (boolean value, one
trailing byte) on which the amended theorem's hypothesis holds. -/
theorem claim_C10_trailing_bytes_ignored_witness :
    isNilRes (RVal.vptr none) = .ok true ∧
    DecodeF (asciiBytes "ut:" ++ (ser (.wbool true) ++ [120])) (RVal.vptr none) 9 =
      DecodeF (asciiBytes "ut:" ++ ser (.wbool true)) (RVal.vptr none) 9 :=
  ⟨rfl, claim_C10_trailing_bytes_ignored (.wbool true) [120] (RVal.vptr none) 9 rfl⟩

/-- Claim C10, counterexample to the original claim's success assertion:
`l:n:ee` is one complete well-formed wire value (a list holding the Absent
value), yet decoding `ut:l:n:ee` into a matching non-nil slice destination
does not succeed — decoding the `n` element creates no value, `Elem()` of
the zero `Value` panics with a `*reflect.ValueError`, and Decode returns
that error, with or without trailing bytes. -/
theorem claim_C10_success_refuted :
    ser (.wlist (.lcons .wnil .lnil)) = asciiBytes "l:n:ee" ∧
    (Decode (asciiBytes "ut:l:n:eeX") (RVal.vptr (some (RVal.vslice false [])))).fault =
      some (DFault.derr "reflect: call of reflect.Value.Elem on zero Value") ∧
    (Decode (asciiBytes "ut:l:n:ee") (RVal.vptr (some (RVal.vslice false [])))).fault =
      some (DFault.derr "reflect: call of reflect.Value.Elem on zero Value") := by
  refine ⟨by decide, rfl, rfl⟩
